import Mathlib

/-!
Verification of the PyGreSQL `pg.py` convenience layer (`DB` class):
the metadata caches (primary keys, attribute names), the typed parameter
preparer, and the CRUD statement builders (get / insert / update / upsert /
delete / truncate), shallowly embedded from `src/pg.py`.

Python values are modelled by `PyVal`, Python dicts by ordered association
lists (`PyDict`), and the external C driver (connection transport) by the
fields of `DBConn`: catalog-query oracles giving the rows the fixed catalog
queries of `pkey` / `get_attnames` return, the escaping primitives, and a
`runQuery` executor for the synthesized statements.  The mutable caches of a
`DB` instance live in `DBState`, which also counts catalog queries and logs
every statement handed to the executor.
-/

namespace PG

/-- A Python value as the `DB` methods consume it. -/
inductive PyVal where
  | vnone
  | vstr (s : String)
  | vint (n : Int)
  | vbool (b : Bool)
  deriving DecidableEq, Repr

/-- Python truthiness (`bool(d)`): None, "", 0, False and [] are falsy. -/
def truthy : PyVal → Bool
  | .vnone => false
  | .vstr s => !(s == "")
  | .vint n => !(n == 0)
  | .vbool b => b

/-- Python `d == 0` for the values above (True/False compare equal to 1/0). -/
def pyEqZero : PyVal → Bool
  | .vint n => n == 0
  | .vbool b => b == false
  | _ => false

/-- Python `isinstance(d, basestring)`. -/
def isStr : PyVal → Bool
  | .vstr _ => true
  | _ => false

/-- Python `isinstance(d, (bool, int))`. -/
def isBoolInt : PyVal → Bool
  | .vbool _ => true
  | .vint _ => true
  | _ => false

/-- ASCII lower-casing of a character, as `str.lower` acts on the
ASCII strings compared against the fixed keyword sets of `pg.py`. -/
def lowerChar (c : Char) : Char :=
  if 'A' ≤ c ∧ c ≤ 'Z' then Char.ofNat (c.toNat + 32) else c

/-- `s.lower()` on ASCII strings. -/
def sLower (s : String) : String := ⟨s.data.map lowerChar⟩

/-- `s.endswith('*')`. -/
def endsStar (s : String) : Bool := s.data.getLast? == some '*'

/-- `'.' in s`. -/
def containsDot (s : String) : Bool := s.data.contains '.'

/-- `s[:-1]`. -/
def dropLastChar (s : String) : String := ⟨s.data.dropLast⟩

/-- `s.rstrip()` restricted to the blank characters relevant here. -/
def rstrip (s : String) : String :=
  ⟨(s.data.reverse.dropWhile (fun c => c ∈ [' ', '\t', '\n', '\r'])).reverse⟩

/-- `table[:-1].rstrip()` applied when a table name ends in `*`. -/
def stripStar (s : String) : String :=
  if endsStar s then rstrip (dropLastChar s) else s

/-- Python `str(v)` as used by `'%s' % value` for the values above. -/
def fragOfVal : PyVal → String
  | .vnone => "None"
  | .vstr s => s
  | .vint n => if n < 0 then "-" ++ Nat.repr n.natAbs else Nat.repr n.natAbs
  | .vbool b => if b then "True" else "False"

/-- Membership test on an ordered association list (Python `k in d`). -/
def acontains {α : Type} (l : List (String × α)) (k : String) : Bool :=
  (List.find? (fun p => p.1 == k) l).isSome

/-- Lookup on an ordered association list (Python `d.get(k)`). -/
def alookup {α : Type} (l : List (String × α)) (k : String) : Option α :=
  (List.find? (fun p => p.1 == k) l).map Prod.snd

/-- Insert-or-replace on an ordered association list (Python `d[k] = v`):
replace in place if present, else append, preserving insertion order. -/
def aset {α : Type} (l : List (String × α)) (k : String) (v : α) : List (String × α) :=
  if acontains l k then
    List.map (fun p => if p.1 == k then (k, v) else p) l
  else
    List.append l [(k, v)]

/-- Deletion on an ordered association list (Python `del d[k]`). -/
def adel {α : Type} (l : List (String × α)) (k : String) : List (String × α) :=
  List.filter (fun p => p.1 ≠ k) l

/-- An ordered Python dict with string keys (insertion order preserved). -/
abbrev PyDict := List (String × PyVal)

/-- `k in d`. -/
def dcontains (d : PyDict) (k : String) : Bool := acontains d k

/-- `d.get(k)` as an `Option`. -/
def dget (d : PyDict) (k : String) : Option PyVal := alookup d k

/-- `d[k]`, defaulting to `None` (callers only use it when the key exists). -/
def dgetD (d : PyDict) (k : String) : PyVal := (dget d k).getD .vnone

/-- `d[k] = v`. -/
def dset (d : PyDict) (k : String) (v : PyVal) : PyDict := aset d k v

/-- `del d[k]`. -/
def ddel (d : PyDict) (k : String) : PyDict := adel d k

/-- `d.update(kw)`. -/
def dupdate (d : PyDict) (kw : PyDict) : PyDict :=
  List.foldl (fun d p => dset d p.1 p.2) d kw

/-- `dict(zip(ks, vs))`. -/
def dictZip (ks : List String) (vs : List PyVal) : PyDict :=
  List.foldl (fun d p => dset d p.1 p.2) ([] : PyDict) (List.zip ks vs)

/-- `dict.fromkeys(ks, v)`. -/
def dictFromKeys (ks : List String) (v : PyVal) : PyDict :=
  List.foldl (fun d k => dset d k v) ([] : PyDict) ks

/-- The exception kinds `pg.py` raises or propagates.  `dbError`,
`internalError` and `progError` carry the message of the wrapped
`DatabaseError` / `InternalError` / `ProgrammingError`. -/
inductive DBErr where
  | keyError (msg : String)
  | valueError (msg : String)
  | typeError (msg : String)
  | dbError (msg : String)
  | internalError (msg : String)
  | progError (msg : String)
  deriving DecidableEq, Repr

instance {ε α : Type} [DecidableEq ε] [DecidableEq α] : DecidableEq (Except ε α) :=
  fun a b =>
    match a, b with
    | .ok x, .ok y =>
        if h : x = y then isTrue (by rw [h])
        else isFalse (by intro hc; cases hc; exact h rfl)
    | .error x, .error y =>
        if h : x = y then isTrue (by rw [h])
        else isFalse (by intro hc; cases hc; exact h rfl)
    | .ok _, .error _ => isFalse (by intro hc; cases hc)
    | .error _, .ok _ => isFalse (by intro hc; cases hc)

/-- Is the error a `ProgrammingError` (the class `upsert` catches)? -/
def isProgError : DBErr → Bool
  | .progError _ => true
  | _ => false

/-- The result the executor hands back for a synthesized statement:
a row set (`dictresult()`) or a row count (`DELETE`). -/
inductive QRes where
  | rset (rows : List PyDict)
  | count (n : Nat)
  deriving DecidableEq, Repr

/-- `q.dictresult()`. -/
def dictresult : QRes → List PyDict
  | .rset rows => rows
  | .count _ => []

/-- One row of the primary-key catalog query of `DB.pkey`
(`SELECT a.attname, a.attnum, i.indkey FROM pg_index i JOIN pg_attribute a
...`): the attribute name, its number, and the index's `indkey` vector
(delivered by the transport as a space-separated string of attribute
numbers; modelled here already split into the number list). -/
structure PkRow where
  attname : String
  attnum : Nat
  indkey : List Nat
  deriving DecidableEq, Repr

/-- A cached primary key: a bare column name or a tuple of names. -/
inductive PKey where
  | single (name : String)
  | comp (names : List String)
  deriving DecidableEq, Repr

/-- The external connection (the C driver `_pg` plus server), reduced to
the interface `pg.py` consumes: the rows the two fixed catalog queries
return, the configuration and escaping primitives, and the executor for
synthesized statements.  `runQuery` threads a server-side store `σ`. -/
structure DBConn (σ : Type) where
  catalogPkey : String → List PkRow
  catalogAttnames : String → List (String × String)
  regtypes : Bool
  serverVersion : Nat
  escapeIdent : String → String
  escBytea : PyVal → PyVal
  encJson : PyVal → PyVal
  unescBytea : PyVal → PyVal
  runQuery : String → List PyVal → σ → Except DBErr (QRes × σ)

/-- The mutable state of a `DB` instance: the two metadata caches, a
count of catalog queries issued, the log of statements handed to the
executor, and the server-side store. -/
structure DBState (σ : Type) where
  pkeys : List (String × PKey)
  attnamesCache : List (String × List (String × String))
  catalogQueries : Nat
  executed : List (String × List PyVal)
  store : σ

/-- `_oid_key(table)`. -/
def oid_key (table : String) : String := "oid(" ++ table ++ ")"

/-- `_simpletype(typ)`: reduce a pg_type name to a semantic class. -/
def simpletype (typ : String) : String :=
  if "bool".data.isPrefixOf typ.data then "bool"
  else if "abstime".data.isPrefixOf typ.data ∨ "date".data.isPrefixOf typ.data
      ∨ "interval".data.isPrefixOf typ.data ∨ "timestamp".data.isPrefixOf typ.data then "date"
  else if "cid".data.isPrefixOf typ.data ∨ "oid".data.isPrefixOf typ.data
      ∨ "int".data.isPrefixOf typ.data ∨ "xid".data.isPrefixOf typ.data then "int"
  else if "float".data.isPrefixOf typ.data then "float"
  else if "numeric".data.isPrefixOf typ.data then "num"
  else if "money".data.isPrefixOf typ.data then "money"
  else if "bytea".data.isPrefixOf typ.data then "bytea"
  else if "json".data.isPrefixOf typ.data then "json"
  else "text"

/-- `DB._bool_true_values`. -/
def bool_true_values : List String := ["t", "true", "1", "y", "yes", "on"]

/-- `DB._prepare_bool`: empty strings yield `None`; textual truthy tokens
and truthy non-strings yield `'t'`, everything else `'f'`. -/
def prepare_bool (d : PyVal) : PyVal :=
  match d with
  | .vstr s =>
      if s = "" then .vnone
      else if sLower s ∈ bool_true_values then .vstr "t" else .vstr "f"
  | d => if truthy d then .vstr "t" else .vstr "f"

/-- `DB._date_literals`. -/
def date_literals : List String :=
  ["current_date", "current_time", "current_timestamp", "localtime", "localtimestamp"]

/-- `DB._prepare_date`: falsy values yield `None`; keyword literals raise
`ValueError` (modelled as `.error ()`); anything else passes through. -/
def prepare_date (d : PyVal) : Except Unit PyVal :=
  if ¬ truthy d then .ok .vnone
  else match d with
    | .vstr s => if sLower s ∈ date_literals then .error () else .ok (.vstr s)
    | d => .ok d

/-- `DB._prepare_num`: falsy-but-not-zero values yield `None`. -/
def prepare_num (d : PyVal) : PyVal :=
  if ¬ truthy d ∧ ¬ pyEqZero d then .vnone else d

/-- `DB._prepare_funcs[typ]`, returning `none` on a missing key
(`KeyError` in Python). -/
def prepare_func {σ : Type} (conn : DBConn σ) (typ : String) (d : PyVal) :
    Option (Except Unit PyVal) :=
  if typ = "bool" then some (.ok (prepare_bool d))
  else if typ = "date" then some (prepare_date d)
  else if typ = "int" ∨ typ = "num" ∨ typ = "float" ∨ typ = "money" then
    some (.ok (prepare_num d))
  else if typ = "bytea" then some (.ok (conn.escBytea d))
  else if typ = "json" then some (.ok (conn.encJson d))
  else none

/-- `'$%d' % n`. -/
def placeholder (n : Nat) : String := "$" ++ Nat.repr n

/-- `DB._prepare_param(value, typ, params)`: prepare a value and append it
to the positional parameter list, returning the SQL fragment to splice in
and the new list.  A `ValueError` from the type preparer makes the raw
value the fragment with nothing appended; an unknown type is a
`KeyError`. -/
def prepare_param {σ : Type} (conn : DBConn σ) (value : PyVal) (typ : String)
    (params : List PyVal) : Except DBErr (String × List PyVal) :=
  if value ≠ .vnone ∧ typ ≠ "text" then
    match prepare_func conn typ value with
    | none => .error (.keyError typ)
    | some (.error ()) => .ok (fragOfVal value, params)
    | some (.ok v) =>
        let ps := List.append params [v]
        .ok (placeholder ps.length, ps)
  else
    let ps := List.append params [value]
    .ok (placeholder ps.length, ps)

/-- `DB._escape_qualified_name`: names without a dot are escaped as
identifiers, qualified (dotted) names pass through verbatim. -/
def escQualName {σ : Type} (conn : DBConn σ) (s : String) : String :=
  if ¬ containsDot s then conn.escapeIdent s else s

/-- `sep.join(frags)`. -/
def joinSep (sep : String) : List String → String
  | [] => ""
  | [x] => x
  | x :: xs => x ++ sep ++ joinSep sep xs

/-- Count of `$` characters in a string; under the no-`$`-in-identifiers
hypotheses this counts the `$N` placeholders of a statement. -/
def countD (s : String) : Nat := (s.data.filter (fun c => c == '$')).length

/-- The key list of a (composite-normalized) primary key. -/
def pkeyList : PKey → List String
  | .single n => [n]
  | .comp ns => ns

/-- `if composite and not isinstance(pkey, tuple): pkey = (pkey,)`. -/
def compositeWrap (composite : Bool) : PKey → PKey
  | .single n => if composite then .comp [n] else .single n
  | .comp ns => .comp ns

namespace DB

/-- `DB.pkey(table, composite, flush)`: look the primary key up in the
cache, on a miss run the catalog query (counted in `catalogQueries`);
no rows is a `KeyError` (and nothing is cached); several rows are
reordered by the position of their `attnum` in the index's `indkey`
(`sorted(pkey, key=lambda row: indkey.index(row[1]))`). -/
def pkey {σ : Type} (conn : DBConn σ) (st : DBState σ) (table : String)
    (composite : Bool) (flush : Bool) : Except DBErr PKey × DBState σ :=
  let st := if flush then { st with pkeys := [] } else st
  match alookup st.pkeys table with
  | some pk => (.ok (compositeWrap composite pk), st)
  | none =>
      let st := { st with catalogQueries := st.catalogQueries + 1 }
      match conn.catalogPkey table with
      | [] => (.error (.keyError ("Table " ++ table ++ " has no primary key")), st)
      | r0 :: rest =>
          let pk : PKey :=
            if rest ≠ [] then
              let ik := r0.indkey
              let srt := List.mergeSort (r0 :: rest)
                (fun a b => Nat.ble (List.indexOf a.attnum ik) (List.indexOf b.attnum ik))
              .comp (srt.map PkRow.attname)
            else .single r0.attname
          let st := { st with pkeys := aset st.pkeys table pk }
          (.ok (compositeWrap composite pk), st)

/-- The `attnames.clear()` flush of the attribute-name cache. -/
def clearAttnames {σ : Type} (st : DBState σ) : DBState σ :=
  { st with attnamesCache := [] }

/-- `DB.get_attnames(table, flush)`: cached ordered column → type map;
on a miss run the catalog query (counted) and reduce type names with
`_simpletype` unless `regtypes` is set. -/
def get_attnames {σ : Type} (conn : DBConn σ) (st : DBState σ) (table : String)
    (flush : Bool) : List (String × String) × DBState σ :=
  let st := if flush then clearAttnames st else st
  match alookup st.attnamesCache table with
  | some names => (names, st)
  | none =>
      let st := { st with catalogQueries := st.catalogQueries + 1 }
      let names := conn.catalogAttnames table
      let names :=
        if ¬ conn.regtypes then List.map (fun p => (p.1, simpletype p.2)) names else names
      let st := { st with attnamesCache := aset st.attnamesCache table names }
      (names, st)

end DB

/-- `'SELECT %s FROM %s WHERE %s LIMIT 1' % (what, table, where)`. -/
def selectQ (what tbl whereStr : String) : String :=
  "SELECT " ++ what ++ " FROM " ++ tbl ++ " WHERE " ++ whereStr ++ " LIMIT 1"

/-- `'INSERT INTO %s (%s) VALUES (%s) RETURNING %s'`. -/
def insertQ (tbl names values ret : String) : String :=
  "INSERT INTO " ++ tbl ++ " (" ++ names ++ ") VALUES (" ++ values ++ ") RETURNING " ++ ret

/-- `'UPDATE %s SET %s WHERE %s RETURNING %s'`. -/
def updateQ (tbl values whereStr ret : String) : String :=
  "UPDATE " ++ tbl ++ " SET " ++ values ++ " WHERE " ++ whereStr ++ " RETURNING " ++ ret

/-- `'INSERT INTO %s AS included (%s) VALUES (%s) ON CONFLICT (%s) DO %s RETURNING %s'`. -/
def upsertQ (tbl names values target doClause ret : String) : String :=
  "INSERT INTO " ++ tbl ++ " AS included (" ++ names ++ ") VALUES (" ++ values ++
    ") ON CONFLICT (" ++ target ++ ") DO " ++ doClause ++ " RETURNING " ++ ret

/-- `'DELETE FROM %s WHERE %s'`. -/
def deleteQ (tbl whereStr : String) : String :=
  "DELETE FROM " ++ tbl ++ " WHERE " ++ whereStr

/-- `self._do_debug(q, params)` followed by `self.db.query(q, params)`:
log the statement handed to the executor, then run it. -/
def runQ {σ : Type} (conn : DBConn σ) (st : DBState σ) (q : String)
    (params : List PyVal) : Except DBErr QRes × DBState σ :=
  match conn.runQuery q params st.store with
  | .error e => (.error e, { st with executed := List.append st.executed [(q, params)] })
  | .ok (res, store) =>
      (.ok res,
        { st with
            executed := List.append st.executed [(q, params)]
            store := store })

/-- `%r` rendering of a parameter value for diagnostics. -/
def pyReprVal : PyVal → String
  | .vnone => "None"
  | .vstr s => "'" ++ s ++ "'"
  | .vint n => fragOfVal (.vint n)
  | .vbool b => if b then "True" else "False"

/-- `DB._list_params`. -/
def listParams (params : List PyVal) : String :=
  joinSep ", " (List.map (fun p => "$" ++ Nat.repr p.1 ++ "=" ++ pyReprVal p.2)
    (List.enumFrom 1 params))

/-- The WHERE-clause generator shared by get / update / delete:
`' AND '.join('%s = %s' % (col(k), param(row[k], attnames[k])) for k in keyname)`,
threading the parameter list; a missing row or attnames key is the
`KeyError` the Python subscript would raise. -/
def buildWhere {σ : Type} (conn : DBConn σ) (attnames : List (String × String))
    (row : PyDict) : List String → List PyVal → Except DBErr (List String × List PyVal)
  | [], params => .ok ([], params)
  | k :: ks, params =>
      match dget row k with
      | none => .error (.keyError k)
      | some v =>
          match alookup attnames k with
          | none => .error (.keyError k)
          | some typ =>
              match prepare_param conn v typ params with
              | .error e => .error e
              | .ok (frag, params) =>
                  match buildWhere conn attnames row ks params with
                  | .error e => .error e
                  | .ok (frags, params) =>
                      .ok ((conn.escapeIdent k ++ " = " ++ frag) :: frags, params)

/-- The column/value list loop of insert and upsert:
`for n in attnames: if n in row: names.append(col(n)); values.append(param(...))`. -/
def buildNamesValues {σ : Type} (conn : DBConn σ) (row : PyDict) :
    List (String × String) → List PyVal →
    Except DBErr (List String × List String × List PyVal)
  | [], params => .ok ([], [], params)
  | (n, typ) :: attns, params =>
      if dcontains row n then
        match prepare_param conn (dgetD row n) typ params with
        | .error e => .error e
        | .ok (frag, params) =>
            match buildNamesValues conn row attns params with
            | .error e => .error e
            | .ok (names, values, params) =>
                .ok (conn.escapeIdent n :: names, frag :: values, params)
      else buildNamesValues conn row attns params

/-- The SET-clause loop of update:
`for n in attnames: if n in row and n not in keyname: values.append(...)`. -/
def buildSetValues {σ : Type} (conn : DBConn σ) (row : PyDict) (keyset : List String) :
    List (String × String) → List PyVal → Except DBErr (List String × List PyVal)
  | [], params => .ok ([], params)
  | (n, typ) :: attns, params =>
      if dcontains row n ∧ n ∉ keyset then
        match prepare_param conn (dgetD row n) typ params with
        | .error e => .error e
        | .ok (frag, params) =>
            match buildSetValues conn row keyset attns params with
            | .error e => .error e
            | .ok (values, params) =>
                .ok ((conn.escapeIdent n ++ " = " ++ frag) :: values, params)
      else buildSetValues conn row keyset attns params

/-- The conflict-update clause loop of upsert: for each non-key column,
`value = kw.get(n, True)`; falsy means omit, a string is used verbatim,
any other truthy value becomes `excluded.<col>`.  No parameters are
appended here. -/
def buildUpdateClause {σ : Type} (conn : DBConn σ) (kw : PyDict) (keyset : List String) :
    List (String × String) → List String
  | [] => []
  | (n, _) :: attns =>
      if n ∉ keyset then
        let value := (dget kw n).getD (.vbool true)
        if truthy value then
          let expr := match value with
            | .vstr s => s
            | _ => "excluded." ++ conn.escapeIdent n
          (conn.escapeIdent n ++ " = " ++ expr) :: buildUpdateClause conn kw keyset attns
        else buildUpdateClause conn kw keyset attns
      else buildUpdateClause conn kw keyset attns

/-- The shared oid-renaming / bytea-unescaping merge of a result row into
the caller's record (`for n, value in res[0].items(): ...`). -/
def mergeRow {σ : Type} (conn : DBConn σ) (qoid : Option String)
    (attnames : List (String × String)) : PyDict → List (String × PyVal) → PyDict
  | row, [] => row
  | row, (n, value) :: rest =>
      let kv : String × PyVal :=
        if qoid.isSome ∧ n = "oid" then (qoid.getD "", value)
        else if value ≠ .vnone ∧ alookup attnames n = some "bytea" then
          (n, conn.unescBytea value)
        else (n, value)
      mergeRow conn qoid attnames (dset row kv.1 kv.2) rest

/-- `if 'oid' in row: [row[qoid] = row['oid']]; del row['oid']`. -/
def moveOid (qoid : Option String) (row : PyDict) : PyDict :=
  if dcontains row "oid" then
    let row := match qoid with
      | some q => dset row q (dgetD row "oid")
      | none => row
    ddel row "oid"
  else row

/-- The `row` argument of `DB.get`: a dict, a single value, or a tuple. -/
inductive GetRowArg where
  | dict (d : PyDict)
  | scalar (v : PyVal)
  | tup (vs : List PyVal)
  deriving Repr

/-- The `keyname` argument of `DB.get`: a column name or tuple of names. -/
inductive KeynameArg where
  | one (s : String)
  | many (ks : List String)
  deriving Repr

/-- The keys carried by a keyname argument. -/
def keynameKeys : Option KeynameArg → List String
  | some (.one s) => [s]
  | some (.many ks) => ks
  | none => []

namespace DB

/-- The key-resolution block of `DB.get`: when the (normalized) keyname
is falsy, try the cached primary key and fall back to the OID; otherwise
use the explicit keyname (`if not keyname: try: keyname = self.pkey(...)
except KeyError: ... else: ...`). -/
def getResolveKeyname {σ : Type} (conn : DBConn σ) (st : DBState σ) (table : String)
    (row : GetRowArg) (qoid : Option String) (keyname : Option KeynameArg) :
    Except DBErr (List String) × DBState σ :=
  let knFalsy : Bool := match keyname with
    | none => true
    | some (.one s) => s == ""
    | some (.many ks) => ks.isEmpty
  if knFalsy then
    match pkey conn st table true false with
    | (.error _, st) =>
        match row, qoid with
        | .dict d, some _ =>
            if dcontains d "oid" then (.ok ["oid"], st)
            else (.error (.progError ("Table " ++ table ++ " has no primary key")), st)
        | _, _ => (.error (.progError ("Table " ++ table ++ " has no primary key")), st)
    | (.ok pk, st) =>
        let ks := pkeyList pk
        match row, qoid with
        | .dict d, some _ =>
            if ¬ ks.all (fun k => dcontains d k) then
              if dcontains d "oid" then (.ok ["oid"], st)
              else (.error (.keyError "Missing value in row for specified keyname"), st)
            else (.ok ks, st)
        | .dict d, none =>
            if ¬ ks.all (fun k => dcontains d k) then
              (.error (.keyError "Missing value in row for specified keyname"), st)
            else (.ok ks, st)
        | _, _ => (.ok ks, st)
  else (.ok (keynameKeys keyname), st)

/-- `DB.get(table, row, keyname)`: resolve the key columns (explicit
keyname, else cached primary key, else OID fallback), build and run
`SELECT [oid,] * FROM t WHERE ... LIMIT 1`, fail distinctly on zero rows,
and merge the fetched row into the caller record. -/
def get {σ : Type} (conn : DBConn σ) (st : DBState σ) (table : String)
    (row : GetRowArg) (keyname : Option KeynameArg) :
    Except DBErr PyDict × DBState σ :=
  let table := stripStar table
  let (attnames, st) := get_attnames conn st table false
  let qoid : Option String :=
    if (alookup attnames "oid").isSome then some (oid_key table) else none
  let keyname := match keyname with
    | some (.one s) => if s ≠ "" then some (.many [s]) else some (.one s)
    | k => k
  let row := match row, qoid with
    | .dict d, some q =>
        if dcontains d q ∧ ¬ dcontains d "oid" then
          GetRowArg.dict (dset d "oid" (dgetD d q))
        else .dict d
    | r, _ => r
  match getResolveKeyname conn st table row qoid keyname with
  | (.error e, st) => (.error e, st)
  | (.ok ks, st) =>
      let rowD : Except DBErr PyDict :=
        match row with
        | .dict d => .ok d
        | .scalar v =>
            if ks.length ≠ 1 then
              .error (.keyError "Differing number of items in keyname and row")
            else .ok (dictZip ks [v])
        | .tup vs =>
            if ks.length ≠ vs.length then
              .error (.keyError "Differing number of items in keyname and row")
            else .ok (dictZip ks vs)
      match rowD with
      | .error e => (.error e, st)
      | .ok d =>
          match buildWhere conn attnames d ks [] with
          | .error e => (.error e, st)
          | .ok (frags, params) =>
              let whereStr := joinSep " AND " frags
              let d := moveOid qoid d
              let what := if qoid.isSome then "oid, *" else "*"
              let q := selectQ what (escQualName conn table) whereStr
              match runQ conn st q params with
              | (.error e, st) => (.error e, st)
              | (.ok res, st) =>
                  match dictresult res with
                  | [] =>
                      (.error (.dbError ("No such record in " ++ table ++
                        "\nwhere " ++ whereStr ++ "\nwith " ++ listParams params)), st)
                  | res0 :: _ => (.ok (mergeRow conn qoid attnames d res0), st)

/-- `DB.insert(table, row, **kw)`: build and run
`INSERT INTO t (cols) VALUES (vals) RETURNING [oid,] *` over the
attributes present in the record, and merge the returned row back. -/
def insert {σ : Type} (conn : DBConn σ) (st : DBState σ) (table : String)
    (row0 : Option PyDict) (kw : PyDict) : Except DBErr PyDict × DBState σ :=
  let table := stripStar table
  let row := row0.getD []
  let row := dupdate row kw
  let row := ddel row "oid"
  let (attnames, st) := get_attnames conn st table false
  let qoid : Option String :=
    if (alookup attnames "oid").isSome then some (oid_key table) else none
  match buildNamesValues conn row attnames [] with
  | .error e => (.error e, st)
  | .ok (names, values, params) =>
      let ret := if qoid.isSome then "oid, *" else "*"
      let q := insertQ (escQualName conn table) (joinSep ", " names)
        (joinSep ", " values) ret
      match runQ conn st q params with
      | (.error e, st) => (.error e, st)
      | (.ok res, st) =>
          match dictresult res with
          | [] => (.ok row, st)
          | res0 :: _ => (.ok (mergeRow conn qoid attnames row res0), st)

/-- The key-resolution block shared (verbatim in the source) by
`DB.update` and `DB.delete`: try the cached primary key, fall back to the
row's OID when present (`try: keyname = self.pkey(table, True)
except KeyError: ...`). -/
def updateResolveKeyname {σ : Type} (conn : DBConn σ) (st : DBState σ)
    (table : String) (row : PyDict) (qoid : Option String) :
    Except DBErr (List String) × DBState σ :=
  match pkey conn st table true false with
  | (.error _, st) =>
      if qoid.isSome ∧ dcontains row "oid" then (.ok ["oid"], st)
      else (.error (.progError ("Table " ++ table ++ " has no primary key")), st)
  | (.ok pk, st) =>
      let ks := pkeyList pk
      if ¬ ks.all (fun k => dcontains row k) then
        if qoid.isSome ∧ dcontains row "oid" then (.ok ["oid"], st)
        else (.error (.keyError "Missing primary key in row"), st)
      else (.ok ks, st)

/-- `DB.update(table, row, **kw)`: resolve the key (cached primary key or
OID fallback; a plain `oid` entry of the row dict is dropped first), build
and run `UPDATE t SET ... WHERE ... RETURNING [oid,] *`; nothing to set is
a no-op, zero matched rows are success without a merge. -/
def update {σ : Type} (conn : DBConn σ) (st : DBState σ) (table : String)
    (row0 : Option PyDict) (kw : PyDict) : Except DBErr PyDict × DBState σ :=
  let table := stripStar table
  let (attnames, st) := get_attnames conn st table false
  let qoid : Option String :=
    if (alookup attnames "oid").isSome then some (oid_key table) else none
  let row := match row0 with
    | none => ([] : PyDict)
    | some d => ddel d "oid"
  let row := dupdate row kw
  let row := match qoid with
    | some q =>
        if dcontains row q ∧ ¬ dcontains row "oid" then dset row "oid" (dgetD row q)
        else row
    | none => row
  match updateResolveKeyname conn st table row qoid with
  | (.error e, st) => (.error e, st)
  | (.ok ks, st) =>
      match buildWhere conn attnames row ks [] with
      | .error e => (.error e, st)
      | .ok (wfrags, params) =>
          let whereStr := joinSep " AND " wfrags
          let row := moveOid qoid row
          match buildSetValues conn row ks attnames params with
          | .error e => (.error e, st)
          | .ok (values, params) =>
              if values = [] then (.ok row, st)
              else
                let ret := if qoid.isSome then "oid, *" else "*"
                let q := updateQ (escQualName conn table) (joinSep ", " values)
                  whereStr ret
                match runQ conn st q params with
                | (.error e, st) => (.error e, st)
                | (.ok res, st) =>
                    match dictresult res with
                    | [] => (.ok row, st)
                    | res0 :: _ => (.ok (mergeRow conn qoid attnames row res0), st)

/-- `DB.upsert(table, row, **kw)`: build and run
`INSERT ... ON CONFLICT (pk) DO {NOTHING | UPDATE SET ...} RETURNING ...`;
a `ProgrammingError` from the executor is reinterpreted as an
upsert-unsupported `ProgrammingError` when the server version predates
9.5, otherwise re-raised; an empty result (DO NOTHING hit a conflict)
triggers a re-fetch via `get`. -/
def upsert {σ : Type} (conn : DBConn σ) (st : DBState σ) (table : String)
    (row0 : Option PyDict) (kw : PyDict) : Except DBErr PyDict × DBState σ :=
  let table := stripStar table
  let row := row0.getD []
  let row := ddel row "oid"
  let kw := ddel kw "oid"
  let (attnames, st) := get_attnames conn st table false
  let qoid : Option String :=
    if (alookup attnames "oid").isSome then some (oid_key table) else none
  match buildNamesValues conn row attnames [] with
  | .error e => (.error e, st)
  | .ok (names, values, params) =>
      match pkey conn st table true false with
      | (.error _, st) =>
          (.error (.progError ("Table " ++ table ++ " has no primary key")), st)
      | (.ok pk, st) =>
          let ks := pkeyList pk
          let target := joinSep ", " (List.map conn.escapeIdent ks)
          let keyset := List.append ks ["oid"]
          let upd := buildUpdateClause conn kw keyset attnames
          if values = [] then (.ok row, st)
          else
            let doClause :=
              if upd ≠ [] then "update set " ++ joinSep ", " upd else "nothing"
            let ret := if qoid.isSome then "oid, *" else "*"
            let q := upsertQ (escQualName conn table) (joinSep ", " names)
              (joinSep ", " values) target doClause ret
            match runQ conn st q params with
            | (.error e, st) =>
                if isProgError e then
                  if conn.serverVersion < 90500 then
                    (.error (.progError
                      "Upsert operation is not supported by PostgreSQL version"), st)
                  else (.error e, st)
                else (.error e, st)
            | (.ok res, st) =>
                match dictresult res with
                | [] => get conn st table (.dict row) none
                | res0 :: _ => (.ok (mergeRow conn qoid attnames row res0), st)

/-- `int(res)` on the executor's DELETE result (a row count). -/
def qresCount : QRes → Nat
  | .count n => n
  | .rset _ => 0

/-- `DB.delete(table, row, **kw)`: resolve the key exactly like update
(a plain `oid` entry of the row dict is dropped first), build and run
`DELETE FROM t WHERE ...`, and return the count of deleted rows. -/
def delete {σ : Type} (conn : DBConn σ) (st : DBState σ) (table : String)
    (row0 : Option PyDict) (kw : PyDict) : Except DBErr Nat × DBState σ :=
  let table := stripStar table
  let (attnames, st) := get_attnames conn st table false
  let qoid : Option String :=
    if (alookup attnames "oid").isSome then some (oid_key table) else none
  let row := match row0 with
    | none => ([] : PyDict)
    | some d => ddel d "oid"
  let row := dupdate row kw
  let row := match qoid with
    | some q =>
        if dcontains row q ∧ ¬ dcontains row "oid" then dset row "oid" (dgetD row q)
        else row
    | none => row
  match updateResolveKeyname conn st table row qoid with
  | (.error e, st) => (.error e, st)
  | (.ok ks, st) =>
      match buildWhere conn attnames row ks [] with
      | .error e => (.error e, st)
      | .ok (wfrags, params) =>
          let whereStr := joinSep " AND " wfrags
          let _row := moveOid qoid row
          let q := deleteQ (escQualName conn table) whereStr
          match runQ conn st q params with
          | (.error e, st) => (.error e, st)
          | (.ok res, st) => (.ok (qresCount res), st)

end DB

/-- The `table` argument of `DB.truncate`: one name, a list, or a set
(the set's iteration order is modelled by its list order). -/
inductive TruncTables where
  | one (s : String)
  | list (ts : List String)
  | set (ts : List String)
  deriving Repr

/-- The `only` argument of `DB.truncate`: a single value or a list. -/
inductive TruncOnly where
  | val (v : PyVal)
  | list (vs : List PyVal)
  deriving DecidableEq, Repr

/-- Truthiness of a stored `only` entry. -/
def truncOnlyTruthy : TruncOnly → Bool
  | .val v => truthy v
  | .list vs => !vs.isEmpty

/-- `u is None or isinstance(u, (bool, int))`. -/
def truncOnlyTyped : TruncOnly → Bool
  | .val v => v == .vnone || isBoolInt v
  | .list _ => false

/-- The argument normalization at the head of `DB.truncate`: turn the
table / only arguments into the list of table names and the per-table
`only` dict (`only = {table: only}` / `dict(zip(table, only))` /
`dict.fromkeys(table, only)`). -/
def truncNorm (table : TruncTables) (only : TruncOnly) :
    List String × List (String × TruncOnly) :=
  match table with
  | .one s => ([s], aset [] s only)
  | .list ts =>
      match only with
      | .list vs =>
          (ts, List.foldl (fun d p => aset d p.1 p.2) []
            (List.zip ts (List.map TruncOnly.val vs)))
      | .val v =>
          (ts, List.foldl (fun d t => aset d t (TruncOnly.val v)) [] ts)
  | .set ts => (ts, List.foldl (fun d t => aset d t only) [] ts)

namespace DB

/-- The per-table loop of truncate: type-check the `only` entry, reject a
trailing `*` combined with a truthy `only` for that name, strip the `*`,
escape, and add the `ONLY` prefix when requested. -/
def truncLoop {σ : Type} (conn : DBConn σ) (od : List (String × TruncOnly)) :
    List String → Except DBErr (List String)
  | [] => .ok []
  | t :: ts =>
      let u := (alookup od t).getD (TruncOnly.val .vnone)
      if ¬ truncOnlyTyped u then .error (.typeError "Invalid type for the only option")
      else
        let t' : Except DBErr String :=
          if endsStar t then
            if truncOnlyTruthy u then
              .error (.valueError "Contradictory table name and only options")
            else .ok (rstrip (dropLastChar t))
          else .ok t
        match t' with
        | .error e => .error e
        | .ok t' =>
            let t'' := escQualName conn t'
            let t'' := if truncOnlyTruthy u then "ONLY " ++ t'' else t''
            match truncLoop conn od ts with
            | .error e => .error e
            | .ok rest => .ok (t'' :: rest)

/-- `DB.truncate(table, restart, cascade, only)`: normalize the table /
only arguments into a list plus per-table dict, validate the option
types, reject contradictory `*`/`only` combinations before any statement
is built, and run a single `TRUNCATE ... [RESTART IDENTITY] [CASCADE]`. -/
def truncate {σ : Type} (conn : DBConn σ) (st : DBState σ) (table : TruncTables)
    (restart cascade : PyVal) (only : TruncOnly) : Except DBErr QRes × DBState σ :=
  let (ts, od) := truncNorm table only
  if ¬ (restart = .vnone ∨ isBoolInt restart) then
    (.error (.typeError "Invalid type for the restart option"), st)
  else if ¬ (cascade = .vnone ∨ isBoolInt cascade) then
    (.error (.typeError "Invalid type for the cascade option"), st)
  else
    match truncLoop conn od ts with
    | .error e => (.error e, st)
    | .ok tables =>
        let q := joinSep " " (List.append ["TRUNCATE", joinSep ", " tables]
          (List.append (if truthy restart then ["RESTART IDENTITY"] else [])
            (if truthy cascade then ["CASCADE"] else [])))
        runQ conn st q []

end DB

/-! ### Association-list lemmas -/

theorem acontains_eq_isSome {α : Type} (l : List (String × α)) (k : String) :
    acontains l k = (alookup l k).isSome := by
  simp [acontains, alookup]

theorem alookup_nil {α : Type} (k : String) : alookup ([] : List (String × α)) k = none := rfl

theorem alookup_cons {α : Type} (p : String × α) (l : List (String × α)) (k : String) :
    alookup (p :: l) k = if p.1 = k then some p.2 else alookup l k := by
  simp only [alookup, List.find?]
  by_cases h : p.1 = k
  · simp [h]
  · simp [h, beq_eq_false_iff_ne.mpr h]

theorem alookup_aset_self {α : Type} (l : List (String × α)) (k : String) (v : α) :
    alookup (aset l k v) k = some v := by
  unfold aset
  by_cases h : acontains l k = true
  · simp only [h, if_true]
    induction l with
    | nil => simp [acontains] at h
    | cons p l ih =>
        by_cases hp : p.1 = k
        · simp [alookup_cons, hp]
        · have hl : acontains l k = true := by
            simpa [acontains, List.find?_cons, beq_eq_false_iff_ne.mpr hp] using h
          simpa [alookup_cons, hp] using ih hl
  · simp only [h, if_false]
    induction l with
    | nil => simp [alookup_cons]
    | cons p l ih =>
        by_cases hp : p.1 = k
        · exfalso
          apply h
          simp [acontains, List.find?_cons, beq_iff_eq.mpr hp]
        · have hl : acontains l k ≠ true := by
            intro hc
            apply h
            simp only [acontains, List.find?_cons] at hc ⊢
            rcases hb : (fun p => p.1 == k) p with _ | _
            · simpa [hb] using hc
            · simp [hb]
          simpa [List.cons_append, alookup_cons, hp] using ih hl

theorem alookup_map_replace_ne {α : Type} (l : List (String × α)) (k k' : String)
    (v : α) (h : k' ≠ k) :
    alookup (List.map (fun p => if p.1 == k' then (k', v) else p) l) k = alookup l k := by
  induction l with
  | nil => rfl
  | cons p l ih =>
      simp only [beq_iff_eq] at ih ⊢
      by_cases hp : p.1 = k'
      · have hk : ¬ p.1 = k := by rw [hp]; exact h
        simp only [List.map_cons, hp, if_true, alookup_cons, h, if_false, hk, ih]
      · simp only [List.map_cons, hp, if_false, alookup_cons, ih]

theorem alookup_append_single_ne {α : Type} (l : List (String × α)) (k k' : String)
    (v : α) (h : k' ≠ k) :
    alookup (List.append l [(k', v)]) k = alookup l k := by
  induction l with
  | nil => simp [alookup_cons, alookup_nil, h]
  | cons p l ih =>
      simp only [List.append_eq] at ih ⊢
      simp only [List.cons_append, alookup_cons, ih]

theorem alookup_aset_ne {α : Type} (l : List (String × α)) (k k' : String) (v : α)
    (h : k' ≠ k) : alookup (aset l k' v) k = alookup l k := by
  unfold aset
  by_cases hc : acontains l k'
  · simpa [hc] using alookup_map_replace_ne l k k' v h
  · simpa [hc] using alookup_append_single_ne l k k' v h

theorem alookup_adel_ne {α : Type} (l : List (String × α)) (k k' : String)
    (h : k' ≠ k) : alookup (adel l k') k = alookup l k := by
  induction l with
  | nil => rfl
  | cons p l ih =>
      by_cases hp : p.1 = k'
      · have hk : ¬ p.1 = k := by rw [hp]; exact h
        have h1 : adel (p :: l) k' = adel l k' := by
          simp [adel, List.filter_cons, hp]
        rw [h1, ih, alookup_cons, if_neg hk]
      · have h1 : adel (p :: l) k' = p :: adel l k' := by
          simp [adel, List.filter_cons, hp]
        rw [h1, alookup_cons, alookup_cons, ih]

theorem acontains_adel_self {α : Type} (l : List (String × α)) (k : String) :
    acontains (adel l k) k = false := by
  induction l with
  | nil => rfl
  | cons p l ih =>
      by_cases hp : p.1 = k
      · simp only [adel, List.filter] at ih ⊢
        simpa [hp] using ih
      · simp only [adel, List.filter] at ih ⊢
        simp [hp, acontains, List.find?_cons, beq_eq_false_iff_ne.mpr hp]

theorem alookup_mem {α : Type} {l : List (String × α)} {k : String} {v : α}
    (h : alookup l k = some v) : (k, v) ∈ l := by
  induction l with
  | nil => simp [alookup_nil] at h
  | cons p l ih =>
      rw [alookup_cons] at h
      by_cases hp : p.1 = k
      · simp only [hp, if_true, Option.some.injEq] at h
        have hpv : p = (k, v) := by
          cases p
          simp only at hp h
          rw [hp, h]
        rw [← hpv]
        exact List.mem_cons_self _ _
      · simp only [hp, if_false] at h
        exact List.mem_cons_of_mem _ (ih h)

theorem adel_sublist {α : Type} (l : List (String × α)) (k : String) :
    List.Sublist (adel l k) l := List.filter_sublist l

/-! ### Counting `$` characters -/

theorem data_append (a b : String) : (a ++ b).data = a.data ++ b.data := by
  cases a
  cases b
  rfl

theorem countD_append (a b : String) : countD (a ++ b) = countD a + countD b := by
  simp [countD, data_append, List.filter_append]

theorem countD_eq_zero_iff (s : String) : countD s = 0 ↔ '$' ∉ s.data := by
  constructor
  · intro h hm
    have : '$' ∈ s.data.filter (fun c => c == '$') := by
      simp [List.mem_filter, hm]
    rw [List.eq_nil_of_length_eq_zero h] at this
    simp at this
  · intro h
    simp only [countD, List.length_eq_zero]
    apply List.filter_eq_nil_iff.mpr
    intro c hc
    simp only [beq_iff_eq]
    intro hcd
    exact h (hcd ▸ hc)

theorem digitChar_ne_dollar (m : Nat) : Nat.digitChar m ≠ '$' := by
  by_cases h : m < 16
  · interval_cases m <;> decide
  · unfold Nat.digitChar
    simp only [if_neg (by omega : ¬ m = 0), if_neg (by omega : ¬ m = 1),
      if_neg (by omega : ¬ m = 2), if_neg (by omega : ¬ m = 3),
      if_neg (by omega : ¬ m = 4), if_neg (by omega : ¬ m = 5),
      if_neg (by omega : ¬ m = 6), if_neg (by omega : ¬ m = 7),
      if_neg (by omega : ¬ m = 8), if_neg (by omega : ¬ m = 9),
      if_neg (by omega : ¬ m = 10), if_neg (by omega : ¬ m = 11),
      if_neg (by omega : ¬ m = 12), if_neg (by omega : ¬ m = 13),
      if_neg (by omega : ¬ m = 14), if_neg (by omega : ¬ m = 15)]
    decide

theorem toDigitsCore_no_dollar (fuel : Nat) : ∀ (n : Nat) (ds : List Char),
    (∀ c ∈ ds, c ≠ '$') → ∀ c ∈ Nat.toDigitsCore 10 fuel n ds, c ≠ '$' := by
  induction fuel with
  | zero => intro n ds h; simpa [Nat.toDigitsCore] using h
  | succ fuel ih =>
      intro n ds h
      rw [Nat.toDigitsCore]
      split
      · intro c hc
        rcases List.mem_cons.mp hc with rfl | hc
        · exact digitChar_ne_dollar _
        · exact h c hc
      · refine ih _ _ ?_
        intro c hc
        rcases List.mem_cons.mp hc with rfl | hc
        · exact digitChar_ne_dollar _
        · exact h c hc

theorem repr_no_dollar (n : Nat) : ∀ c ∈ (Nat.repr n).data, c ≠ '$' := by
  have := toDigitsCore_no_dollar (n + 1) n [] (by simp)
  simpa [Nat.repr, Nat.toDigits, List.asString] using this

theorem countD_repr (n : Nat) : countD (Nat.repr n) = 0 :=
  (countD_eq_zero_iff _).mpr (fun hm => repr_no_dollar n '$' hm rfl)

theorem countD_placeholder (n : Nat) : countD (placeholder n) = 1 := by
  rw [placeholder, countD_append, countD_repr]
  decide

theorem lowerChar_dollar : lowerChar '$' = '$' := by decide

/-- A string whose lower-casing is one of the date keyword literals
contains no `$` (so an inline keyword fragment adds no placeholder). -/
theorem date_literal_countD {s : String} (h : sLower s ∈ date_literals) :
    countD s = 0 := by
  apply (countD_eq_zero_iff s).mpr
  intro hm
  have hmem : '$' ∈ (sLower s).data := by
    have h1 := List.mem_map_of_mem lowerChar hm
    rw [lowerChar_dollar] at h1
    exact h1
  simp only [date_literals, List.mem_cons, List.not_mem_nil, or_false] at h
  rcases h with h | h | h | h | h <;> rw [h] at hmem <;> exact absurd hmem (by decide)

/-! ### The parameter preparer -/

/-- A `ValueError` from `_prepare_date` means the value was a string whose
lower-casing is a recognized date keyword literal. -/
theorem prepare_date_error {v : PyVal} (h : prepare_date v = .error ()) :
    ∃ s, v = .vstr s ∧ sLower s ∈ date_literals := by
  rcases v with _ | s | n | b
  · simp [prepare_date, truthy] at h
  · by_cases hl : sLower s ∈ date_literals
    · exact ⟨s, rfl, hl⟩
    · exfalso
      by_cases ht : truthy (PyVal.vstr s) <;> simp [prepare_date, ht, hl] at h
  · by_cases ht : truthy (PyVal.vint n) <;> simp [prepare_date, ht] at h
  · by_cases ht : truthy (PyVal.vbool b) <;> simp [prepare_date, ht] at h

/-- Only the date preparer can raise `ValueError`. -/
theorem prepare_func_error {σ : Type} (conn : DBConn σ) {typ : String} {v : PyVal}
    (h : prepare_func conn typ v = some (.error ())) :
    typ = "date" ∧ prepare_date v = .error () := by
  unfold prepare_func at h
  split at h
  · simp at h
  · split at h
    · rename_i hd
      simp only [Option.some.injEq] at h
      exact ⟨hd, h⟩
    · split at h
      · simp at h
      · split at h
        · simp at h
        · split at h
          · simp at h
          · simp at h

/-- Case analysis of a successful `_prepare_param`: either the value was
appended and the fragment is the placeholder for the new list length, or
the value is a date keyword literal emitted verbatim with the list
untouched. -/
theorem prepare_param_cases {σ : Type} (conn : DBConn σ) (v : PyVal) (typ : String)
    (ps : List PyVal) (f : String) (ps' : List PyVal)
    (h : prepare_param conn v typ ps = .ok (f, ps')) :
    (∃ w, ps' = List.append ps [w] ∧ f = placeholder (ps.length + 1)) ∨
    (ps' = ps ∧ ∃ s, v = .vstr s ∧ f = s ∧ sLower s ∈ date_literals ∧ typ = "date") := by
  unfold prepare_param at h
  split at h
  · match hf : prepare_func conn typ v with
    | none => rw [hf] at h; exact absurd h (by simp)
    | some (.error ()) =>
        rw [hf] at h
        simp only [Except.ok.injEq, Prod.mk.injEq] at h
        right
        obtain ⟨hd, herr⟩ := prepare_func_error conn hf
        obtain ⟨s, hv, hlit⟩ := prepare_date_error herr
        refine ⟨h.2.symm, s, hv, ?_, hlit, hd⟩
        rw [← h.1, hv]
        rfl
    | some (.ok w) =>
        rw [hf] at h
        simp only [Except.ok.injEq, Prod.mk.injEq] at h
        left
        refine ⟨w, h.2.symm, ?_⟩
        rw [← h.1]
        simp [List.append_eq, List.length_append]
  · simp only [Except.ok.injEq, Prod.mk.injEq] at h
    left
    refine ⟨v, h.2.symm, ?_⟩
    rw [← h.1]
    simp [List.append_eq, List.length_append]

/-- Fragment `$`-count accounts exactly for the parameter-list growth. -/
theorem prepare_param_countD {σ : Type} (conn : DBConn σ) (v : PyVal) (typ : String)
    (ps : List PyVal) (f : String) (ps' : List PyVal)
    (h : prepare_param conn v typ ps = .ok (f, ps')) :
    ps'.length = ps.length + countD f := by
  rcases prepare_param_cases conn v typ ps f ps' h with ⟨w, h1, h2⟩ | ⟨h1, s, _, h2, h3, _⟩
  · rw [h1, h2, countD_placeholder]
    simp [List.append_eq, List.length_append]
  · rw [h1, h2, date_literal_countD h3]
    rfl

/-! ### Witness fixtures -/

/-- A minimal concrete connection over a unit store, used to instantiate
the theorems.  Table `t` has the composite key `(b, a)` (index key order
reversed from column order), table `s` the single key `id`. -/
def connW : DBConn Unit := {
  catalogPkey := fun t =>
    if t = "t" then [⟨"a", 1, [2, 1]⟩, ⟨"b", 2, [2, 1]⟩]
    else if t = "s" then [⟨"id", 1, [1]⟩] else []
  catalogAttnames := fun t =>
    if t = "s" then [("id", "int4"), ("name", "varchar")] else []
  regtypes := false
  serverVersion := 90600
  escapeIdent := fun s => "\"" ++ s ++ "\""
  escBytea := fun v => v
  encJson := fun v => v
  unescBytea := fun v => v
  runQuery := fun _ _ s => .ok (.rset [], s) }

/-- The initial (empty-cache) state over the unit store. -/
def st0W : DBState Unit := ⟨[], [], 0, [], ()⟩

/-! ### C1: the "absent" preparation outcome -/

/-- C1 (counterexample): preparing the empty-string boolean appends the
null value to the positional parameter list and returns the placeholder
`$1`; it does not leave the list empty with an inline `NULL` fragment as
the claim states. -/
theorem claim1_counterexample :
    prepare_param connW (.vstr "") "bool" [] = .ok ("$1", [PyVal.vnone]) ∧
    prepare_param connW (.vstr "") "bool" [] ≠ .ok ("NULL", ([] : List PyVal)) := by
  constructor
  · rfl
  · intro h
    exact absurd h (by decide)

/-- C1 (amended): for every parameter whose preparation yields the
"absent" outcome (a bool value that is the empty string, a falsy date
value, or a falsy-but-not-zero numeric value), `_prepare_param` appends
the null value `None` to the positional parameter list and returns the
`$N` placeholder for it — the parameter is passed as a placeholder bound
to NULL, not as an inline `NULL` literal. -/
theorem claim1_amended {σ : Type} (conn : DBConn σ) (params : List PyVal) (v : PyVal)
    (typ : String)
    (habs : (typ = "bool" ∧ v = .vstr "")
      ∨ (typ = "date" ∧ truthy v = false)
      ∨ ((typ = "int" ∨ typ = "num" ∨ typ = "float" ∨ typ = "money")
          ∧ truthy v = false ∧ pyEqZero v = false)) :
    prepare_param conn v typ params
      = .ok (placeholder (params.length + 1), List.append params [PyVal.vnone]) := by
  rcases habs with ⟨ht, hv⟩ | ⟨ht, hv⟩ | ⟨ht, hv, hz⟩
  · subst ht hv
    have hpf : prepare_func conn "bool" (.vstr "") = some (.ok PyVal.vnone) := by
      simp [prepare_func, prepare_bool]
    unfold prepare_param
    rw [if_pos (by simp : (PyVal.vstr "" ≠ PyVal.vnone ∧ ("bool" : String) ≠ "text"))]
    simp only [hpf, List.append_eq, List.length_append, List.length_singleton]
  · subst ht
    by_cases hn : v = PyVal.vnone
    · subst hn
      unfold prepare_param
      rw [if_neg (by simp)]
      simp [List.append_eq, List.length_append]
    · have hpd : prepare_date v = .ok PyVal.vnone := by
        unfold prepare_date
        rw [if_pos (by simp [hv])]
      have hpf : prepare_func conn "date" v = some (.ok PyVal.vnone) := by
        simp [prepare_func, hpd]
      unfold prepare_param
      rw [if_pos ⟨hn, by decide⟩]
      simp only [hpf, List.append_eq, List.length_append, List.length_singleton]
  · by_cases hn : v = PyVal.vnone
    · subst hn
      unfold prepare_param
      rw [if_neg (by simp)]
      simp [List.append_eq, List.length_append]
    · have hpn : prepare_num v = PyVal.vnone := by
        unfold prepare_num
        rw [if_pos (by simp [hv, hz])]
      have hpf : prepare_func conn typ v = some (.ok PyVal.vnone) := by
        rcases ht with h | h | h | h <;> subst h <;>
          simp [prepare_func, hpn]
      have htx : typ ≠ "text" := by
        rcases ht with h | h | h | h <;> subst h <;> decide
      unfold prepare_param
      rw [if_pos ⟨hn, htx⟩]
      simp only [hpf, List.append_eq, List.length_append, List.length_singleton]

/-- C1 (witness): amended claim at a concrete input. -/
theorem claim1_witness :
    prepare_param connW (.vstr "") "num" [PyVal.vint 5]
      = .ok ("$2", [PyVal.vint 5, PyVal.vnone]) := by
  rw [claim1_amended connW [PyVal.vint 5] (.vstr "") "num" (by decide)]
  rfl

/-! ### C6: date keyword literals -/

/-- C6: a date-class parameter whose value lower-cases to a recognized
keyword literal is emitted verbatim as a bare SQL fragment with nothing
appended to the parameter list; every other truthy date value is appended
and replaced by the `$N` placeholder. -/
theorem claim6_date_keywords {σ : Type} (conn : DBConn σ) (params : List PyVal) :
    (∀ s : String, sLower s ∈ date_literals →
       prepare_param conn (.vstr s) "date" params = .ok (s, params)) ∧
    (∀ v : PyVal, truthy v = true → (∀ s, v = .vstr s → sLower s ∉ date_literals) →
       prepare_param conn v "date" params
         = .ok (placeholder (params.length + 1), List.append params [v])) := by
  constructor
  · intro s hl
    have hs : ¬ s = "" := by
      intro h
      rw [h] at hl
      exact absurd hl (by decide)
    have ht : truthy (PyVal.vstr s) = true := by simp [truthy, hs]
    have hpd : prepare_date (.vstr s) = .error () := by
      unfold prepare_date
      rw [if_neg (by simp [ht])]
      simp [hl]
    have hpf : prepare_func conn "date" (.vstr s) = some (.error ()) := by
      simp [prepare_func, hpd]
    unfold prepare_param
    rw [if_pos ⟨by simp, by decide⟩]
    simp only [hpf]
    rfl
  · intro v htr hnk
    have hn : v ≠ PyVal.vnone := by
      intro h
      rw [h] at htr
      exact absurd htr (by decide)
    have hpd : prepare_date v = .ok v := by
      unfold prepare_date
      rw [if_neg (by simp [htr])]
      rcases v with _ | s | n | b
      · rfl
      · have := hnk s rfl
        simp [this]
      · rfl
      · rfl
    have hpf : prepare_func conn "date" v = some (.ok v) := by
      simp [prepare_func, hpd]
    unfold prepare_param
    rw [if_pos ⟨hn, by decide⟩]
    simp only [hpf, List.append_eq, List.length_append, List.length_singleton]

/-- C6 (witness): `"Current_TIMESTAMP"` is emitted verbatim without a
parameter; `"2024-01-01"` is parameterized as `$1`. -/
theorem claim6_witness :
    prepare_param connW (.vstr "Current_TIMESTAMP") "date" []
      = .ok ("Current_TIMESTAMP", ([] : List PyVal)) ∧
    prepare_param connW (.vstr "2024-01-01") "date" []
      = .ok ("$1", [PyVal.vstr "2024-01-01"]) := by
  constructor
  · exact (claim6_date_keywords connW []).1 "Current_TIMESTAMP" (by decide)
  · rw [(claim6_date_keywords connW []).2 (.vstr "2024-01-01") (by decide)
      (by intro s h; cases h; decide)]
    rfl

/-! ### C2: the "no primary key" outcome is not cached -/

/-- C2 (counterexample): for a table without a primary key the first
`pkey` call leaves the primary-key cache empty, and a second call issues
another catalog query (the counter reaches 2) before raising the same
`KeyError` — the "no key" outcome is not stored in the cache. -/
theorem claim2_counterexample :
    (DB.pkey connW st0W "nopk" false false).2.pkeys = [] ∧
    (DB.pkey connW ((DB.pkey connW st0W "nopk" false false).2) "nopk"
        false false).2.catalogQueries = 2 ∧
    (DB.pkey connW ((DB.pkey connW st0W "nopk" false false).2) "nopk"
        false false).1 = .error (.keyError "Table nopk has no primary key") :=
  ⟨rfl, rfl, by decide⟩

/-- C2 (amended): for a table without a primary key, every `pkey` lookup
raises the same `KeyError` and stores nothing: the cache is unchanged and
each call issues a fresh catalog query (the "no key" outcome is not
memoized). -/
theorem claim2_amended {σ : Type} (conn : DBConn σ) (st : DBState σ) (t : String)
    (composite : Bool)
    (hmiss : alookup st.pkeys t = none) (hnone : conn.catalogPkey t = []) :
    (DB.pkey conn st t composite false).1
      = .error (.keyError ("Table " ++ t ++ " has no primary key")) ∧
    (DB.pkey conn st t composite false).2.pkeys = st.pkeys ∧
    (DB.pkey conn st t composite false).2.catalogQueries = st.catalogQueries + 1 ∧
    (DB.pkey conn (DB.pkey conn st t composite false).2 t composite false).1
      = .error (.keyError ("Table " ++ t ++ " has no primary key")) ∧
    (DB.pkey conn (DB.pkey conn st t composite false).2 t composite
        false).2.catalogQueries = st.catalogQueries + 2 := by
  have h1 : DB.pkey conn st t composite false
      = (.error (.keyError ("Table " ++ t ++ " has no primary key")),
         { st with catalogQueries := st.catalogQueries + 1 }) := by
    unfold DB.pkey
    simp only [Bool.false_eq_true, if_false, hmiss, hnone]
  have h2 : DB.pkey conn { st with catalogQueries := st.catalogQueries + 1 } t
      composite false
      = (.error (.keyError ("Table " ++ t ++ " has no primary key")),
         { st with catalogQueries := st.catalogQueries + 2 }) := by
    unfold DB.pkey
    simp only [Bool.false_eq_true, if_false, hmiss, hnone]
  rw [h1]
  exact ⟨rfl, rfl, rfl, by rw [h2], by rw [h2]⟩

/-- C2 (witness): amended claim at a concrete keyless table. -/
theorem claim2_witness :
    (DB.pkey connW st0W "nopk" true false).1
      = .error (.keyError "Table nopk has no primary key") ∧
    (DB.pkey connW st0W "nopk" true false).2.pkeys = st0W.pkeys ∧
    (DB.pkey connW st0W "nopk" true false).2.catalogQueries
      = st0W.catalogQueries + 1 ∧
    (DB.pkey connW (DB.pkey connW st0W "nopk" true false).2 "nopk" true false).1
      = .error (.keyError "Table nopk has no primary key") ∧
    (DB.pkey connW (DB.pkey connW st0W "nopk" true false).2 "nopk" true
        false).2.catalogQueries = st0W.catalogQueries + 2 :=
  claim2_amended connW st0W "nopk" true rfl rfl

/-! ### C7: attribute-map cache idempotence -/

/-- C7: with flush unset, two `get_attnames` calls issue exactly one
catalog query — the first increments the counter, the second is a pure
cache hit returning the identical mapping and leaving the state
untouched — and flushing an unpopulated attribute cache is a no-op. -/
theorem claim7_attnames_cache {σ : Type} (conn : DBConn σ) (st : DBState σ)
    (t : String) (hmiss : alookup st.attnamesCache t = none) :
    ((DB.get_attnames conn st t false).2.catalogQueries = st.catalogQueries + 1 ∧
     (DB.get_attnames conn (DB.get_attnames conn st t false).2 t false).1
       = (DB.get_attnames conn st t false).1 ∧
     (DB.get_attnames conn (DB.get_attnames conn st t false).2 t false).2
       = (DB.get_attnames conn st t false).2) ∧
    (st.attnamesCache = [] → DB.clearAttnames st = st) := by
  constructor
  · set nm : List (String × String) :=
      (if ¬ conn.regtypes then
        List.map (fun p => (p.1, simpletype p.2)) (conn.catalogAttnames t)
      else conn.catalogAttnames t) with hnm
    set st1 : DBState σ :=
      { st with
          catalogQueries := st.catalogQueries + 1
          attnamesCache := aset st.attnamesCache t nm } with hst1
    have h1 : DB.get_attnames conn st t false = (nm, st1) := by
      rw [hst1, hnm]
      unfold DB.get_attnames
      simp only [Bool.false_eq_true, if_false, hmiss]
    have h2 : DB.get_attnames conn st1 t false = (nm, st1) := by
      rw [hst1]
      unfold DB.get_attnames
      simp only [Bool.false_eq_true, if_false]
      rw [alookup_aset_self]
    rw [h1, h2]
    exact ⟨by rw [hst1], rfl, rfl⟩
  · intro hempty
    unfold DB.clearAttnames
    cases st
    simp only at hempty
    simp [hempty]

/-! ### C3: composite keys in index key order -/

/-- Sorting the catalog rows by the position of their `attnum` in the
index's `indkey` places at position `j` exactly the row whose `attnum` is
`indkey[j]`, given the catalog facts: the rows' attnums are distinct and
`indkey` is a permutation of them. -/
theorem sortByIndkey_spec (ik : List Nat) (rows : List PkRow)
    (hperm : ik.Perm (rows.map PkRow.attnum))
    (hnd : (rows.map PkRow.attnum).Nodup) :
    ∀ j, j < rows.length →
      ∃ r, r ∈ rows ∧ ik[j]? = some r.attnum ∧
        ((rows.mergeSort (fun a b =>
            Nat.ble (List.indexOf a.attnum ik) (List.indexOf b.attnum ik))).map
            PkRow.attname)[j]? = some r.attname := by
  intro j hj
  set f : PkRow → Nat := fun r => List.indexOf r.attnum ik with hf
  set le : PkRow → PkRow → Bool := fun a b => Nat.ble (f a) (f b) with hle
  set srt := rows.mergeSort le with hsrt
  have hsp : srt.Perm rows := List.mergeSort_perm rows le
  have hslen : srt.length = rows.length := List.length_mergeSort rows
  have hik_len : ik.length = rows.length := by
    have h := hperm.length_eq
    simpa using h
  have hiknd : ik.Nodup := hperm.nodup_iff.mpr hnd
  have hsorted : List.Pairwise (fun a b => le a b = true) srt := by
    apply List.sorted_mergeSort
    · intro a b c hab hbc
      rw [hle] at hab hbc ⊢
      simp only [Nat.ble_eq] at hab hbc ⊢
      exact le_trans hab hbc
    · intro a b
      rw [hle]
      simp only [Bool.or_eq_true, Nat.ble_eq]
      exact Nat.le_total _ _
  have e1 : List.map f rows
      = List.map (fun a => List.indexOf a ik) (List.map PkRow.attnum rows) := by
    rw [List.map_map]
    rfl
  have e2 : List.map (fun a => List.indexOf a ik) ik = List.range ik.length := by
    apply List.ext_getElem
    · simp
    · intro n h1 h2
      simp only [List.getElem_map, List.getElem_range]
      exact List.indexOf_getElem hiknd n (by simpa using h1)
  have p4 : (List.map f srt).Perm (List.range rows.length) := by
    have p1 : (List.map f srt).Perm (List.map f rows) := hsp.map f
    have p2 : (List.map (fun a => List.indexOf a ik) ik).Perm
        (List.map (fun a => List.indexOf a ik) (List.map PkRow.attnum rows)) :=
      hperm.map _
    have p3 : (List.map f srt).Perm
        (List.map (fun a => List.indexOf a ik) (List.map PkRow.attnum rows)) :=
      e1 ▸ p1
    have p5 := p3.trans p2.symm
    rw [e2, hik_len] at p5
    exact p5
  have hmapped : List.map f srt = List.range rows.length := by
    apply List.eq_of_perm_of_sorted (r := (· ≤ · : Nat → Nat → Prop)) p4
    · exact (List.pairwise_map.mpr (hsorted.imp (fun hab => by
        rw [hle] at hab
        simpa [Nat.ble_eq] using hab)))
    · exact (List.pairwise_lt_range _).imp le_of_lt
  have hjs : j < srt.length := by rw [hslen]; exact hj
  have hb1 : j < (List.map f srt).length := by simpa [hslen] using hj
  have e3 : f (srt[j]) = j := by
    have h4 : (List.map f srt)[j] = j := by
      rw [List.getElem_of_eq hmapped hb1]
      exact List.getElem_range _ _
    rw [List.getElem_map] at h4
    exact h4
  have hmem_rows : srt[j] ∈ rows := hsp.mem_iff.mp (List.getElem_mem hjs)
  have hmemik : (srt[j]).attnum ∈ ik :=
    hperm.mem_iff.mpr (List.mem_map_of_mem PkRow.attnum hmem_rows)
  have hlt : List.indexOf (srt[j]).attnum ik < ik.length :=
    List.indexOf_lt_length.mpr hmemik
  have e5 : ik[List.indexOf (srt[j]).attnum ik] = (srt[j]).attnum :=
    List.getElem_indexOf hlt
  rw [hf] at e3
  simp only [e3] at e5
  refine ⟨srt[j], hmem_rows, ?_, ?_⟩
  · rw [List.getElem?_eq_getElem (by rw [hik_len]; exact hj)]
    rw [e5]
  · rw [List.getElem?_eq_getElem (by simpa [hslen] using hj)]
    rw [List.getElem_map]

/-- C3: for a table with a primary key (cache miss), `pkey(t, True)`
returns the key column names ordered by the primary-key index's own
`indkey` order — position `j` holds the name of the column whose `attnum`
is `indkey[j]` — and for a single-column key the composite result is the
one-element tuple of the non-composite result. -/
theorem claim3_pkey_order {σ : Type} (conn : DBConn σ) (st : DBState σ)
    (t : String) (r0 : PkRow) (rest : List PkRow)
    (hmiss : alookup st.pkeys t = none)
    (hcat : conn.catalogPkey t = r0 :: rest)
    (hperm : r0.indkey.Perm ((r0 :: rest).map PkRow.attnum))
    (hnd : ((r0 :: rest).map PkRow.attnum).Nodup) :
    (∃ ns, (DB.pkey conn st t true false).1 = .ok (.comp ns) ∧
       ns.length = (r0 :: rest).length ∧
       ∀ j, j < ns.length → ∃ r, r ∈ r0 :: rest ∧
         r0.indkey[j]? = some r.attnum ∧ ns[j]? = some r.attname) ∧
    (rest = [] →
       (DB.pkey conn st t true false).1 = .ok (.comp [r0.attname]) ∧
       (DB.pkey conn st t false false).1 = .ok (.single r0.attname)) := by
  constructor
  · cases rest with
    | nil =>
        refine ⟨[r0.attname], ?_, by simp, ?_⟩
        · unfold DB.pkey
          simp [hmiss, hcat, compositeWrap]
        · intro j hj
          have hj0 : j = 0 := by simpa using hj
          subst hj0
          have hik : r0.indkey = [r0.attnum] := by
            apply List.perm_singleton.mp
            simpa using hperm
          exact ⟨r0, by simp, by simp [hik], by simp⟩
    | cons r1 rest' =>
        refine ⟨((r0 :: r1 :: rest').mergeSort (fun a b =>
            Nat.ble (List.indexOf a.attnum r0.indkey)
              (List.indexOf b.attnum r0.indkey))).map PkRow.attname, ?_, ?_, ?_⟩
        · unfold DB.pkey
          simp [hmiss, hcat, compositeWrap]
        · simp [List.length_mergeSort]
        · intro j hj
          apply sortByIndkey_spec r0.indkey (r0 :: r1 :: rest') hperm hnd
          simpa [List.length_mergeSort] using hj
  · intro hrest
    subst hrest
    constructor <;>
      · unfold DB.pkey
        simp [hmiss, hcat, compositeWrap]

/-- C3 (witness): table `t` of the fixture has columns `(a, b)` but index
key order `(b, a)`; the ordering theorem applies to it. -/
theorem claim3_witness :
    (∃ ns, (DB.pkey connW st0W "t" true false).1 = .ok (.comp ns) ∧
       ns.length = ([⟨"a", 1, [2, 1]⟩, ⟨"b", 2, [2, 1]⟩] : List PkRow).length ∧
       ∀ j, j < ns.length → ∃ r,
         r ∈ ([⟨"a", 1, [2, 1]⟩, ⟨"b", 2, [2, 1]⟩] : List PkRow) ∧
         (⟨"a", 1, [2, 1]⟩ : PkRow).indkey[j]? = some r.attnum ∧
         ns[j]? = some r.attname) ∧
    (([⟨"b", 2, [2, 1]⟩] : List PkRow) = [] →
       (DB.pkey connW st0W "t" true false).1 = .ok (.comp ["a"]) ∧
       (DB.pkey connW st0W "t" false false).1 = .ok (.single "a")) :=
  claim3_pkey_order connW st0W "t" ⟨"a", 1, [2, 1]⟩ [⟨"b", 2, [2, 1]⟩]
    rfl (by decide) (by decide) (by decide)

/-! ### State-preservation and dict helper lemmas -/

theorem get_attnames_store {σ : Type} (conn : DBConn σ) (st : DBState σ)
    (t : String) (fl : Bool) :
    (DB.get_attnames conn st t fl).2.store = st.store := by
  simp only [DB.get_attnames, DB.clearAttnames]
  repeat' split
  all_goals rfl

theorem get_attnames_executed {σ : Type} (conn : DBConn σ) (st : DBState σ)
    (t : String) (fl : Bool) :
    (DB.get_attnames conn st t fl).2.executed = st.executed := by
  simp only [DB.get_attnames, DB.clearAttnames]
  repeat' split
  all_goals rfl

theorem pkey_store {σ : Type} (conn : DBConn σ) (st : DBState σ)
    (t : String) (c fl : Bool) :
    (DB.pkey conn st t c fl).2.store = st.store := by
  simp only [DB.pkey]
  repeat' split
  all_goals rfl

theorem pkey_executed {σ : Type} (conn : DBConn σ) (st : DBState σ)
    (t : String) (c fl : Bool) :
    (DB.pkey conn st t c fl).2.executed = st.executed := by
  simp only [DB.pkey]
  repeat' split
  all_goals rfl

theorem alookup_aset {α : Type} (l : List (String × α)) (k k' : String) (v : α) :
    alookup (aset l k' v) k = if k' = k then some v else alookup l k := by
  by_cases h : k' = k
  · subst h
    rw [alookup_aset_self, if_pos rfl]
  · rw [alookup_aset_ne l k k' v h, if_neg h]

/-- A key absent from the updating dict is untouched by `dict.update`. -/
theorem alookup_dupdate_notin (a kw : PyDict) (k : String)
    (h : acontains kw k = false) :
    alookup (dupdate a kw) k = alookup a k := by
  induction kw generalizing a with
  | nil => rfl
  | cons p kw ih =>
      have hp : ¬ p.1 = k := by
        intro hc
        simp [acontains, List.find?_cons, beq_iff_eq.mpr hc] at h
      have hb : (p.1 == k) = false := beq_eq_false_iff_ne.mpr hp
      have htl : acontains kw k = false := by
        simpa [acontains, List.find?_cons, hb] using h
      show alookup (dupdate (dset a p.1 p.2) kw) k = alookup a k
      rw [ih (dset a p.1 p.2) htl]
      exact alookup_aset_ne a k p.1 p.2 hp

theorem oid_key_ne_oid (t : String) : oid_key t ≠ "oid" := by
  intro h
  have hlen := congrArg (fun s => s.data.length) h
  simp only [oid_key, data_append] at hlen
  simp [List.length_append] at hlen

theorem stripStar_no_star {s : String} (h : endsStar s = false) :
    stripStar s = s := by
  unfold stripStar
  rw [h]
  rfl

/-! ### C9: contradictory truncate options -/

/-- If every `only` entry is well-typed and some listed name both ends in
`*` and has a truthy `only` entry, the per-table loop fails with the
contradictory-options `ValueError`. -/
theorem truncLoop_offender {σ : Type} (conn : DBConn σ)
    (od : List (String × TruncOnly)) :
    ∀ ts : List String,
      (∀ t ∈ ts, truncOnlyTyped ((alookup od t).getD (TruncOnly.val .vnone)) = true) →
      (∃ t ∈ ts, endsStar t = true ∧
        truncOnlyTruthy ((alookup od t).getD (TruncOnly.val .vnone)) = true) →
      DB.truncLoop conn od ts
        = .error (.valueError "Contradictory table name and only options") := by
  intro ts
  induction ts with
  | nil =>
      intro _ hoff
      simp at hoff
  | cons t0 ts ih =>
      intro htyped hoff
      unfold DB.truncLoop
      rw [if_neg (by simp [htyped t0 (List.mem_cons_self t0 ts)])]
      by_cases hstar : endsStar t0 = true
      · by_cases htr :
          truncOnlyTruthy ((alookup od t0).getD (TruncOnly.val .vnone)) = true
        · simp [hstar, htr]
        · have hoff' : ∃ t ∈ ts, endsStar t = true ∧
              truncOnlyTruthy ((alookup od t).getD (TruncOnly.val .vnone)) = true := by
            rcases hoff with ⟨t, ht, h1, h2⟩
            rcases List.mem_cons.mp ht with rfl | ht'
            · exact absurd h2 htr
            · exact ⟨t, ht', h1, h2⟩
          rw [ih (fun t ht => htyped t (List.mem_cons_of_mem t0 ht)) hoff']
          simp [hstar, htr]
      · have hoff' : ∃ t ∈ ts, endsStar t = true ∧
            truncOnlyTruthy ((alookup od t).getD (TruncOnly.val .vnone)) = true := by
          rcases hoff with ⟨t, ht, h1, h2⟩
          rcases List.mem_cons.mp ht with rfl | ht'
          · exact absurd h1 hstar
          · exact ⟨t, ht', h1, h2⟩
        rw [ih (fun t ht => htyped t (List.mem_cons_of_mem t0 ht)) hoff']
        simp [hstar]

/-- C9: a truncate call listing a name that ends in `*` while the `only`
option for that same name is true fails with a validation `ValueError`
before any statement is built: the state (including the executed-statement
log) is returned unchanged. -/
theorem claim9_truncate_contradiction {σ : Type} (conn : DBConn σ) (st : DBState σ)
    (table : TruncTables) (only : TruncOnly) (restart cascade : PyVal)
    (hr : restart = .vnone ∨ isBoolInt restart = true)
    (hc : cascade = .vnone ∨ isBoolInt cascade = true)
    (htyped : ∀ t ∈ (truncNorm table only).1,
      truncOnlyTyped ((alookup (truncNorm table only).2 t).getD
        (TruncOnly.val .vnone)) = true)
    (hoff : ∃ t ∈ (truncNorm table only).1, endsStar t = true ∧
      truncOnlyTruthy ((alookup (truncNorm table only).2 t).getD
        (TruncOnly.val .vnone)) = true) :
    DB.truncate conn st table restart cascade only
      = (.error (.valueError "Contradictory table name and only options"), st) := by
  unfold DB.truncate
  cases hn : truncNorm table only with
  | mk ts od =>
      rw [hn] at htyped hoff
      simp only at htyped hoff
      show (if ¬(restart = PyVal.vnone ∨ isBoolInt restart = true) then _ else _) = _
      rw [if_neg (fun h => h hr), if_neg (fun h => h hc)]
      rw [truncLoop_offender conn od ts htyped hoff]

/-- C9 (witness): `truncate(["a", "b*"], only=[False, True])` is rejected
as contradictory with the state unchanged. -/
theorem claim9_witness :
    DB.truncate connW st0W (.list ["a", "b*"]) (.vbool false) (.vbool false)
        (.list [.vbool false, .vbool true])
      = (.error (.valueError "Contradictory table name and only options"), st0W) :=
  claim9_truncate_contradiction connW st0W (.list ["a", "b*"])
    (.list [.vbool false, .vbool true]) (.vbool false) (.vbool false)
    (by decide) (by decide) (by decide)
    ⟨"b*", by decide, by decide, by decide⟩

/-! ### C8 support: the placeholder/parameter lock-step invariant -/

/-- Every logged statement's `$`-count equals its parameter count. -/
def goodLog {σ : Type} (st : DBState σ) : Prop :=
  ∀ qp ∈ st.executed, countD qp.1 = qp.2.length

theorem goodLog_of_executed_eq {σ : Type} {st st' : DBState σ}
    (h : st'.executed = st.executed) (hlog : goodLog st) : goodLog st' := by
  intro qp hm
  rw [h] at hm
  exact hlog qp hm

theorem runQ_goodLog {σ : Type} (conn : DBConn σ) (st : DBState σ) (q : String)
    (params : List PyVal) (hlog : goodLog st) (hq : countD q = params.length) :
    goodLog (runQ conn st q params).2 := by
  have hstep : goodLog { st with executed := List.append st.executed [(q, params)] } := by
    intro qp hm
    simp only [List.append_eq] at hm
    rcases List.mem_append.mp hm with hm | hm
    · exact hlog qp hm
    · rcases List.mem_singleton.mp hm with rfl
      exact hq
  unfold runQ
  split
  · exact hstep
  · intro qp hm
    simp only [List.append_eq] at hm
    rcases List.mem_append.mp hm with hm | hm
    · exact hlog qp hm
    · rcases List.mem_singleton.mp hm with rfl
      exact hq

theorem countD_joinSep (sep : String) (hsep : countD sep = 0) :
    ∀ l : List String, countD (joinSep sep l) = (l.map countD).sum := by
  intro l
  induction l with
  | nil => simp [joinSep, countD]
  | cons x xs ih =>
      cases xs with
      | nil => simp [joinSep]
      | cons y ys =>
          show countD (x ++ sep ++ joinSep sep (y :: ys)) = _
          rw [countD_append, countD_append, hsep, ih]
          simp [List.map_cons, List.sum_cons]

theorem escQual_countD {σ : Type} (conn : DBConn σ)
    (hid : ∀ s, countD (conn.escapeIdent s) = 0) {t : String}
    (ht : countD t = 0) : countD (escQualName conn t) = 0 := by
  unfold escQualName
  split
  · exact hid t
  · exact ht

theorem countD_stripStar {s : String} (h : countD s = 0) :
    countD (stripStar s) = 0 := by
  rw [countD_eq_zero_iff] at h ⊢
  intro hm
  apply h
  unfold stripStar at hm
  split at hm
  · have h1 : '$' ∈ (dropLastChar s).data := by
      have h2 : '$' ∈ ((dropLastChar s).data.reverse.dropWhile
          (fun c => c ∈ [' ', '\t', '\n', '\r'])) := by
        simpa [rstrip] using hm
      have h3 := (List.dropWhile_sublist _).subset h2
      simpa using h3
    exact (List.dropLast_sublist s.data).subset h1
  · exact hm

theorem buildWhere_countD {σ : Type} (conn : DBConn σ)
    (hid : ∀ s, countD (conn.escapeIdent s) = 0)
    (attnames : List (String × String)) (row : PyDict) :
    ∀ (ks : List String) (params : List PyVal) (frags : List String)
      (params' : List PyVal),
      buildWhere conn attnames row ks params = .ok (frags, params') →
      params'.length = params.length + (frags.map countD).sum := by
  intro ks
  induction ks with
  | nil =>
      intro params frags params' h
      simp only [buildWhere, Except.ok.injEq, Prod.mk.injEq] at h
      rw [← h.1, ← h.2]
      simp
  | cons k ks ih =>
      intro params frags params' h
      unfold buildWhere at h
      split at h
      · exact absurd h (by simp)
      · split at h
        · exact absurd h (by simp)
        · split at h
          · exact absurd h (by simp)
          · split at h
            · exact absurd h (by simp)
            · rename_i v hg xo typ ha x1 f ps1 hpp x2 frs ps2 hbw
              simp only [Except.ok.injEq, Prod.mk.injEq] at h
              have hlen1 := prepare_param_countD conn v typ params f ps1 hpp
              have hlen2 := ih ps1 frs ps2 hbw
              rw [← h.1, ← h.2]
              simp only [List.map_cons, List.sum_cons, countD_append, hid k]
              have hsep : countD " = " = 0 := by decide
              rw [hsep]
              omega

theorem buildNamesValues_countD {σ : Type} (conn : DBConn σ)
    (hid : ∀ s, countD (conn.escapeIdent s) = 0) (row : PyDict) :
    ∀ (attns : List (String × String)) (params : List PyVal)
      (names values : List String) (params' : List PyVal),
      buildNamesValues conn row attns params = .ok (names, values, params') →
      params'.length = params.length + (values.map countD).sum ∧
      ∀ nm ∈ names, countD nm = 0 := by
  intro attns
  induction attns with
  | nil =>
      intro params names values params' h
      simp only [buildNamesValues, Except.ok.injEq, Prod.mk.injEq] at h
      constructor
      · rw [← h.2.1, ← h.2.2]
        simp
      · intro nm hm
        rw [← h.1] at hm
        simp at hm
  | cons p attns ih =>
      intro params names values params' h
      unfold buildNamesValues at h
      by_cases hc : dcontains row p.1 = true
      · rw [if_pos hc] at h
        split at h
        · exact absurd h (by simp)
        · split at h
          · exact absurd h (by simp)
          · rename_i x1 f ps1 hpp x2 nms vls ps2 hbn
            simp only [Except.ok.injEq, Prod.mk.injEq] at h
            have hlen1 := prepare_param_countD conn (dgetD row p.1) p.2 params f ps1 hpp
            obtain ⟨hlen2, hnm2⟩ := ih ps1 nms vls ps2 hbn
            constructor
            · rw [← h.2.1, ← h.2.2]
              have := prepare_param_countD conn (dgetD row p.1) p.2 params f ps1 hpp
              simp only [List.map_cons, List.sum_cons]
              omega
            · intro nm hm
              rw [← h.1] at hm
              rcases List.mem_cons.mp hm with rfl | hm
              · exact hid p.1
              · exact hnm2 nm hm
      · rw [if_neg hc] at h
        exact ih params names values params' h

theorem buildSetValues_countD {σ : Type} (conn : DBConn σ)
    (hid : ∀ s, countD (conn.escapeIdent s) = 0) (row : PyDict)
    (keyset : List String) :
    ∀ (attns : List (String × String)) (params : List PyVal)
      (values : List String) (params' : List PyVal),
      buildSetValues conn row keyset attns params = .ok (values, params') →
      params'.length = params.length + (values.map countD).sum := by
  intro attns
  induction attns with
  | nil =>
      intro params values params' h
      simp only [buildSetValues, Except.ok.injEq, Prod.mk.injEq] at h
      rw [← h.1, ← h.2]
      simp
  | cons p attns ih =>
      intro params values params' h
      unfold buildSetValues at h
      by_cases hc : dcontains row p.1 = true ∧ p.1 ∉ keyset
      · rw [if_pos hc] at h
        split at h
        · exact absurd h (by simp)
        · split at h
          · exact absurd h (by simp)
          · rename_i x1 f ps1 hpp x2 vls ps2 hbs
            simp only [Except.ok.injEq, Prod.mk.injEq] at h
            have hlen1 := prepare_param_countD conn (dgetD row p.1) p.2 params f ps1 hpp
            have hlen2 := ih ps1 vls ps2 hbs
            rw [← h.1, ← h.2]
            simp only [List.map_cons, List.sum_cons, countD_append, hid p.1]
            have hsep : countD " = " = 0 := by decide
            rw [hsep]
            omega
      · rw [if_neg hc] at h
        exact ih params values params' h

theorem buildUpdateClause_countD {σ : Type} (conn : DBConn σ)
    (hid : ∀ s, countD (conn.escapeIdent s) = 0) (kw : PyDict)
    (hkw : ∀ p ∈ kw, ∀ s, p.2 = PyVal.vstr s → countD s = 0)
    (keyset : List String) :
    ∀ attns : List (String × String),
      ∀ fr ∈ buildUpdateClause conn kw keyset attns, countD fr = 0 := by
  intro attns
  induction attns with
  | nil => intro fr hm; simp [buildUpdateClause] at hm
  | cons p attns ih =>
      intro fr hm
      unfold buildUpdateClause at hm
      by_cases hks : p.1 ∉ keyset
      · rw [if_pos hks] at hm
        by_cases htr : truthy ((dget kw p.1).getD (PyVal.vbool true)) = true
        · rw [if_pos htr] at hm
          simp only [] at hm
          rcases List.mem_cons.mp hm with rfl | hm
          · rw [countD_append, countD_append, hid p.1]
            have hsep : countD " = " = 0 := by decide
            rw [hsep]
            match hv : dget kw p.1 with
            | some (PyVal.vstr s) =>
                have hmem := alookup_mem hv
                simp only [Option.getD_some]
                rw [hkw (p.1, PyVal.vstr s) hmem s rfl]
            | some PyVal.vnone =>
                simp only [Option.getD_some]
                rw [countD_append, hid p.1]
                decide
            | some (PyVal.vint n) =>
                simp only [Option.getD_some]
                rw [countD_append, hid p.1]
                decide
            | some (PyVal.vbool b) =>
                simp only [Option.getD_some]
                rw [countD_append, hid p.1]
                decide
            | none =>
                simp only [Option.getD_none]
                rw [countD_append, hid p.1]
                decide
          · exact ih fr hm
        · rw [if_neg htr] at hm
          exact ih fr hm
      · rw [if_neg hks] at hm
        exact ih fr hm

theorem getResolveKeyname_executed {σ : Type} (conn : DBConn σ) (st : DBState σ)
    (table : String) (row : GetRowArg) (qoid : Option String)
    (keyname : Option KeynameArg) :
    (DB.getResolveKeyname conn st table row qoid keyname).2.executed = st.executed := by
  simp only [DB.getResolveKeyname]
  cases hP : DB.pkey conn st table true false with
  | mk r stB =>
      have h := pkey_executed conn st table true false
      rw [hP] at h
      rcases r with e | pk <;> (repeat' split) <;>
        first | exact h | rfl | simp_all

theorem getResolveKeyname_store {σ : Type} (conn : DBConn σ) (st : DBState σ)
    (table : String) (row : GetRowArg) (qoid : Option String)
    (keyname : Option KeynameArg) :
    (DB.getResolveKeyname conn st table row qoid keyname).2.store = st.store := by
  simp only [DB.getResolveKeyname]
  cases hP : DB.pkey conn st table true false with
  | mk r stB =>
      have h := pkey_store conn st table true false
      rw [hP] at h
      rcases r with e | pk <;> (repeat' split) <;>
        first | exact h | rfl | simp_all

theorem updateResolveKeyname_executed {σ : Type} (conn : DBConn σ) (st : DBState σ)
    (table : String) (row : PyDict) (qoid : Option String) :
    (DB.updateResolveKeyname conn st table row qoid).2.executed = st.executed := by
  simp only [DB.updateResolveKeyname]
  cases hP : DB.pkey conn st table true false with
  | mk r stB =>
      have h := pkey_executed conn st table true false
      rw [hP] at h
      rcases r with e | pk <;> (repeat' split) <;>
        first | exact h | rfl | simp_all

theorem updateResolveKeyname_store {σ : Type} (conn : DBConn σ) (st : DBState σ)
    (table : String) (row : PyDict) (qoid : Option String) :
    (DB.updateResolveKeyname conn st table row qoid).2.store = st.store := by
  simp only [DB.updateResolveKeyname]
  cases hP : DB.pkey conn st table true false with
  | mk r stB =>
      have h := pkey_store conn st table true false
      rw [hP] at h
      rcases r with e | pk <;> (repeat' split) <;>
        first | exact h | rfl | simp_all

/-- `DB.get` preserves the lock-step invariant: the one statement it may
log pairs a SELECT whose placeholder count equals its parameter count. -/
theorem get_goodLog {σ : Type} (conn : DBConn σ)
    (hid : ∀ s, countD (conn.escapeIdent s) = 0)
    (st : DBState σ) (table : String) (row : GetRowArg)
    (keyname : Option KeynameArg) (htbl : countD table = 0)
    (hlog : goodLog st) : goodLog (DB.get conn st table row keyname).2 := by
  simp only [DB.get]
  cases hA : DB.get_attnames conn st (stripStar table) false with
  | mk attnames stA =>
      have hexA : stA.executed = st.executed := by
        have h := get_attnames_executed conn st (stripStar table) false
        rw [hA] at h
        exact h
      have hlogA : goodLog stA := goodLog_of_executed_eq hexA hlog
      simp only []
      generalize (if (alookup attnames "oid").isSome = true
        then some (oid_key (stripStar table)) else none) = qoidE
      split
      · rename_i x stB heqR
        have hexB : stB.executed = stA.executed :=
          (congrArg (fun p => p.2.executed) heqR).symm.trans
            (getResolveKeyname_executed conn stA _ _ _ _)
        exact goodLog_of_executed_eq hexB hlogA
      · rename_i ks stB heqR
        have hexB : stB.executed = stA.executed :=
          (congrArg (fun p => p.2.executed) heqR).symm.trans
            (getResolveKeyname_executed conn stA _ _ _ _)
        have hlogB : goodLog stB := goodLog_of_executed_eq hexB hlogA
        split
        · exact hlogB
        · rename_i d heqD
          split
          · exact hlogB
          · rename_i frags params heqW
            have hwlen := buildWhere_countD conn hid attnames d ks [] frags params heqW
            simp only [List.length_nil] at hwlen
            have hq : countD (selectQ
                (if qoidE.isSome = true then "oid, *" else "*")
                (escQualName conn (stripStar table))
                (joinSep " AND " frags)) = params.length := by
              unfold selectQ
              simp only [countD_append]
              rw [countD_joinSep " AND " (by decide) frags]
              rw [escQual_countD conn hid (countD_stripStar htbl)]
              have h1 : countD (if qoidE.isSome = true then "oid, *" else "*") = 0 := by
                split <;> decide
              rw [h1]
              have h2 : countD "SELECT " = 0 := by decide
              have h3 : countD " FROM " = 0 := by decide
              have h4 : countD " WHERE " = 0 := by decide
              have h5 : countD " LIMIT 1" = 0 := by decide
              omega
            have hrq := runQ_goodLog conn stB _ _ hlogB hq
            split
            · rename_i e stC heqQ
              rw [heqQ] at hrq
              exact hrq
            · rename_i res stC heqQ
              rw [heqQ] at hrq
              split
              · exact hrq
              · exact hrq

/-- `DB.insert` preserves the lock-step invariant. -/
theorem insert_goodLog {σ : Type} (conn : DBConn σ)
    (hid : ∀ s, countD (conn.escapeIdent s) = 0)
    (st : DBState σ) (table : String) (row0 : Option PyDict) (kw : PyDict)
    (htbl : countD table = 0)
    (hlog : goodLog st) : goodLog (DB.insert conn st table row0 kw).2 := by
  simp only [DB.insert]
  cases hA : DB.get_attnames conn st (stripStar table) false with
  | mk attnames stA =>
      have hexA : stA.executed = st.executed := by
        have h := get_attnames_executed conn st (stripStar table) false
        rw [hA] at h
        exact h
      have hlogA : goodLog stA := goodLog_of_executed_eq hexA hlog
      simp only []
      generalize (if (alookup attnames "oid").isSome = true
        then some (oid_key (stripStar table)) else none) = qoidE
      split
      · exact hlogA
      · rename_i names values params heqN
        obtain ⟨hvlen, hnm⟩ := buildNamesValues_countD conn hid _ attnames []
          names values params heqN
        simp only [List.length_nil] at hvlen
        have hq : countD (insertQ (escQualName conn (stripStar table))
            (joinSep ", " names) (joinSep ", " values)
            (if qoidE.isSome = true then "oid, *" else "*")) = params.length := by
          unfold insertQ
          simp only [countD_append]
          rw [countD_joinSep ", " (by decide) names, countD_joinSep ", " (by decide) values]
          rw [escQual_countD conn hid (countD_stripStar htbl)]
          have h0 : (names.map countD).sum = 0 := by
            apply List.sum_eq_zero
            intro x hx
            obtain ⟨nm, hnmm, rfl⟩ := List.mem_map.mp hx
            exact hnm nm hnmm
          rw [h0]
          have h1 : countD (if qoidE.isSome = true then "oid, *" else "*") = 0 := by
            split <;> decide
          rw [h1]
          have h2 : countD "INSERT INTO " = 0 := by decide
          have h3 : countD " (" = 0 := by decide
          have h4 : countD ") VALUES (" = 0 := by decide
          have h5 : countD ") RETURNING " = 0 := by decide
          omega
        have hrq := runQ_goodLog conn stA _ _ hlogA hq
        split
        · rename_i e stC heqQ
          rw [heqQ] at hrq
          exact hrq
        · rename_i res stC heqQ
          rw [heqQ] at hrq
          split
          · exact hrq
          · exact hrq

/-- `DB.update` preserves the lock-step invariant. -/
theorem update_goodLog {σ : Type} (conn : DBConn σ)
    (hid : ∀ s, countD (conn.escapeIdent s) = 0)
    (st : DBState σ) (table : String) (row0 : Option PyDict) (kw : PyDict)
    (htbl : countD table = 0)
    (hlog : goodLog st) : goodLog (DB.update conn st table row0 kw).2 := by
  simp only [DB.update]
  cases hA : DB.get_attnames conn st (stripStar table) false with
  | mk attnames stA =>
      have hexA : stA.executed = st.executed := by
        have h := get_attnames_executed conn st (stripStar table) false
        rw [hA] at h
        exact h
      have hlogA : goodLog stA := goodLog_of_executed_eq hexA hlog
      simp only []
      generalize (if (alookup attnames "oid").isSome = true
        then some (oid_key (stripStar table)) else none) = qoidE
      split
      · rename_i x stB heqR
        have hexB : stB.executed = stA.executed :=
          (congrArg (fun p => p.2.executed) heqR).symm.trans
            (updateResolveKeyname_executed conn stA _ _ _)
        exact goodLog_of_executed_eq hexB hlogA
      · rename_i ks stB heqR
        have hexB : stB.executed = stA.executed :=
          (congrArg (fun p => p.2.executed) heqR).symm.trans
            (updateResolveKeyname_executed conn stA _ _ _)
        have hlogB : goodLog stB := goodLog_of_executed_eq hexB hlogA
        split
        · exact hlogB
        · rename_i frags params1 heqW
          split
          · exact hlogB
          · rename_i values params2 heqS
            split
            · exact hlogB
            · have hwlen := buildWhere_countD conn hid attnames _ ks [] frags params1 heqW
              simp only [List.length_nil] at hwlen
              have hslen := buildSetValues_countD conn hid _ ks attnames params1
                values params2 heqS
              have hq : countD (updateQ (escQualName conn (stripStar table))
                  (joinSep ", " values) (joinSep " AND " frags)
                  (if qoidE.isSome = true then "oid, *" else "*")) = params2.length := by
                unfold updateQ
                simp only [countD_append]
                rw [countD_joinSep ", " (by decide) values,
                  countD_joinSep " AND " (by decide) frags]
                rw [escQual_countD conn hid (countD_stripStar htbl)]
                have h1 : countD (if qoidE.isSome = true then "oid, *" else "*") = 0 := by
                  split <;> decide
                rw [h1]
                have h2 : countD "UPDATE " = 0 := by decide
                have h3 : countD " SET " = 0 := by decide
                have h4 : countD " WHERE " = 0 := by decide
                have h5 : countD " RETURNING " = 0 := by decide
                omega
              have hrq := runQ_goodLog conn stB _ _ hlogB hq
              split
              · rename_i e stC heqQ
                rw [heqQ] at hrq
                exact hrq
              · rename_i res stC heqQ
                rw [heqQ] at hrq
                split
                · exact hrq
                · exact hrq

/-- `DB.delete` preserves the lock-step invariant. -/
theorem delete_goodLog {σ : Type} (conn : DBConn σ)
    (hid : ∀ s, countD (conn.escapeIdent s) = 0)
    (st : DBState σ) (table : String) (row0 : Option PyDict) (kw : PyDict)
    (htbl : countD table = 0)
    (hlog : goodLog st) : goodLog (DB.delete conn st table row0 kw).2 := by
  simp only [DB.delete]
  cases hA : DB.get_attnames conn st (stripStar table) false with
  | mk attnames stA =>
      have hexA : stA.executed = st.executed := by
        have h := get_attnames_executed conn st (stripStar table) false
        rw [hA] at h
        exact h
      have hlogA : goodLog stA := goodLog_of_executed_eq hexA hlog
      simp only []
      generalize (if (alookup attnames "oid").isSome = true
        then some (oid_key (stripStar table)) else none) = qoidE
      split
      · rename_i x stB heqR
        have hexB : stB.executed = stA.executed :=
          (congrArg (fun p => p.2.executed) heqR).symm.trans
            (updateResolveKeyname_executed conn stA _ _ _)
        exact goodLog_of_executed_eq hexB hlogA
      · rename_i ks stB heqR
        have hexB : stB.executed = stA.executed :=
          (congrArg (fun p => p.2.executed) heqR).symm.trans
            (updateResolveKeyname_executed conn stA _ _ _)
        have hlogB : goodLog stB := goodLog_of_executed_eq hexB hlogA
        split
        · exact hlogB
        · rename_i frags params heqW
          have hwlen := buildWhere_countD conn hid attnames _ ks [] frags params heqW
          simp only [List.length_nil] at hwlen
          have hq : countD (deleteQ (escQualName conn (stripStar table))
              (joinSep " AND " frags)) = params.length := by
            unfold deleteQ
            simp only [countD_append]
            rw [countD_joinSep " AND " (by decide) frags]
            rw [escQual_countD conn hid (countD_stripStar htbl)]
            have h2 : countD "DELETE FROM " = 0 := by decide
            have h3 : countD " WHERE " = 0 := by decide
            omega
          have hrq := runQ_goodLog conn stB _ _ hlogB hq
          split
          · rename_i e stC heqQ
            rw [heqQ] at hrq
            exact hrq
          · rename_i res stC heqQ
            rw [heqQ] at hrq
            exact hrq

/-- `DB.upsert` preserves the lock-step invariant (the caller-supplied
conflict-update expressions must not carry `$` themselves). -/
theorem upsert_goodLog {σ : Type} (conn : DBConn σ)
    (hid : ∀ s, countD (conn.escapeIdent s) = 0)
    (st : DBState σ) (table : String) (row0 : Option PyDict) (kw : PyDict)
    (htbl : countD table = 0)
    (hkw : ∀ p ∈ kw, ∀ s, p.2 = PyVal.vstr s → countD s = 0)
    (hlog : goodLog st) : goodLog (DB.upsert conn st table row0 kw).2 := by
  simp only [DB.upsert]
  cases hA : DB.get_attnames conn st (stripStar table) false with
  | mk attnames stA =>
      have hexA : stA.executed = st.executed := by
        have h := get_attnames_executed conn st (stripStar table) false
        rw [hA] at h
        exact h
      have hlogA : goodLog stA := goodLog_of_executed_eq hexA hlog
      simp only []
      generalize (if (alookup attnames "oid").isSome = true
        then some (oid_key (stripStar table)) else none) = qoidE
      split
      · exact hlogA
      · rename_i names values params heqN
        obtain ⟨hvlen, hnm⟩ := buildNamesValues_countD conn hid _ attnames []
          names values params heqN
        simp only [List.length_nil] at hvlen
        split
        · rename_i x stB heqP
          have hexB : stB.executed = stA.executed := by
            have h := pkey_executed conn stA (stripStar table) true false
            rw [heqP] at h
            exact h
          exact goodLog_of_executed_eq hexB hlogA
        · rename_i pk stB heqP
          have hexB : stB.executed = stA.executed := by
            have h := pkey_executed conn stA (stripStar table) true false
            rw [heqP] at h
            exact h
          have hlogB : goodLog stB := goodLog_of_executed_eq hexB hlogA
          split
          · exact hlogB
          · have hupd := buildUpdateClause_countD conn hid (ddel kw "oid")
              (fun p hp => hkw p ((adel_sublist kw "oid").subset hp))
              (List.append (pkeyList pk) ["oid"]) attnames
            have hq : countD (upsertQ (escQualName conn (stripStar table))
                (joinSep ", " names) (joinSep ", " values)
                (joinSep ", " (List.map conn.escapeIdent (pkeyList pk)))
                (if buildUpdateClause conn (ddel kw "oid")
                    (List.append (pkeyList pk) ["oid"]) attnames ≠ [] then
                  "update set " ++ joinSep ", " (buildUpdateClause conn
                    (ddel kw "oid") (List.append (pkeyList pk) ["oid"]) attnames)
                else "nothing")
                (if qoidE.isSome = true then "oid, *" else "*")) = params.length := by
              unfold upsertQ
              simp only [countD_append]
              rw [countD_joinSep ", " (by decide) names,
                countD_joinSep ", " (by decide) values,
                countD_joinSep ", " (by decide)
                  (List.map conn.escapeIdent (pkeyList pk))]
              rw [escQual_countD conn hid (countD_stripStar htbl)]
              have h0 : (names.map countD).sum = 0 := by
                apply List.sum_eq_zero
                intro x hx
                obtain ⟨nm, hnmm, rfl⟩ := List.mem_map.mp hx
                exact hnm nm hnmm
              rw [h0]
              have htg : ((List.map conn.escapeIdent (pkeyList pk)).map countD).sum
                  = 0 := by
                apply List.sum_eq_zero
                intro x hx
                obtain ⟨nm, hnmm, rfl⟩ := List.mem_map.mp hx
                obtain ⟨k, hk, rfl⟩ := List.mem_map.mp hnmm
                exact hid k
              rw [htg]
              have hdo : countD (if buildUpdateClause conn (ddel kw "oid")
                  (List.append (pkeyList pk) ["oid"]) attnames ≠ [] then
                    "update set " ++ joinSep ", " (buildUpdateClause conn
                      (ddel kw "oid") (List.append (pkeyList pk) ["oid"]) attnames)
                  else "nothing") = 0 := by
                split
                · rw [countD_append, countD_joinSep ", " (by decide)]
                  have hz : ((buildUpdateClause conn (ddel kw "oid")
                      (List.append (pkeyList pk) ["oid"]) attnames).map countD).sum
                      = 0 := by
                    apply List.sum_eq_zero
                    intro x hx
                    obtain ⟨fr, hfr, rfl⟩ := List.mem_map.mp hx
                    exact hupd fr hfr
                  rw [hz]
                  decide
                · decide
              rw [hdo]
              have h1 : countD (if qoidE.isSome = true then "oid, *" else "*")
                  = 0 := by
                split <;> decide
              rw [h1]
              have h2 : countD "INSERT INTO " = 0 := by decide
              have h3 : countD " AS included (" = 0 := by decide
              have h4 : countD ") VALUES (" = 0 := by decide
              have h5 : countD ") ON CONFLICT (" = 0 := by decide
              have h6 : countD ") DO " = 0 := by decide
              have h7 : countD " RETURNING " = 0 := by decide
              omega
            have hrq := runQ_goodLog conn stB _ _ hlogB hq
            split
            · rename_i e stC heqQ
              rw [heqQ] at hrq
              split
              · split
                · exact hrq
                · exact hrq
              · exact hrq
            · rename_i res stC heqQ
              rw [heqQ] at hrq
              split
              · exact get_goodLog conn hid stC (stripStar table) (.dict _) none
                  (countD_stripStar htbl) hrq
              · exact hrq

/-- C8: for every statement assembled by the five builders the number of
`$` placeholders in the generated SQL equals the length of the
accompanying parameter list (each builder preserves the invariant that
every logged statement satisfies this, under the hypotheses that escaped
identifiers, the table name, and caller-supplied upsert expressions carry
no `$` of their own), and each placeholder returned by `_prepare_param`
when it appends is exactly `$N` for `N` the length of the list right
after the append — placeholders are consecutive from `$1`. -/
theorem claim8_placeholder_lockstep {σ : Type} (conn : DBConn σ)
    (hid : ∀ s, countD (conn.escapeIdent s) = 0) :
    (∀ (st : DBState σ) (table : String) (row : GetRowArg)
        (keyname : Option KeynameArg), countD table = 0 → goodLog st →
        goodLog (DB.get conn st table row keyname).2) ∧
    (∀ (st : DBState σ) (table : String) (row0 : Option PyDict) (kw : PyDict),
        countD table = 0 → goodLog st →
        goodLog (DB.insert conn st table row0 kw).2) ∧
    (∀ (st : DBState σ) (table : String) (row0 : Option PyDict) (kw : PyDict),
        countD table = 0 → goodLog st →
        goodLog (DB.update conn st table row0 kw).2) ∧
    (∀ (st : DBState σ) (table : String) (row0 : Option PyDict) (kw : PyDict),
        countD table = 0 →
        (∀ p ∈ kw, ∀ s, p.2 = PyVal.vstr s → countD s = 0) → goodLog st →
        goodLog (DB.upsert conn st table row0 kw).2) ∧
    (∀ (st : DBState σ) (table : String) (row0 : Option PyDict) (kw : PyDict),
        countD table = 0 → goodLog st →
        goodLog (DB.delete conn st table row0 kw).2) ∧
    (∀ (v : PyVal) (typ : String) (ps ps' : List PyVal) (f : String),
        prepare_param conn v typ ps = .ok (f, ps') → ps' ≠ ps →
        ps'.length = ps.length + 1 ∧ f = placeholder ps'.length) := by
  refine ⟨?_, ?_, ?_, ?_, ?_, ?_⟩
  · intro st table row keyname htbl hlog
    exact get_goodLog conn hid st table row keyname htbl hlog
  · intro st table row0 kw htbl hlog
    exact insert_goodLog conn hid st table row0 kw htbl hlog
  · intro st table row0 kw htbl hlog
    exact update_goodLog conn hid st table row0 kw htbl hlog
  · intro st table row0 kw htbl hkw hlog
    exact upsert_goodLog conn hid st table row0 kw htbl hkw hlog
  · intro st table row0 kw htbl hlog
    exact delete_goodLog conn hid st table row0 kw htbl hlog
  · intro v typ ps ps' f h hne
    rcases prepare_param_cases conn v typ ps f ps' h with ⟨w, h1, h2⟩ | ⟨h1, _⟩
    · constructor
      · rw [h1]
        simp [List.append_eq, List.length_append]
      · rw [h2, h1]
        simp [List.append_eq, List.length_append]
    · exact absurd h1 hne

/-- A connection whose identifier escaping strips `$` (so escaped
identifiers introduce no spurious placeholder characters). -/
def connQ : DBConn Unit := { connW with
  escapeIdent := fun s =>
    "\"" ++ String.mk (s.data.filter (fun c => c ≠ '$')) ++ "\"" }

/-- C8 (witness): the invariant instantiated at a concrete upsert and a
concrete parameter preparation. -/
theorem claim8_witness :
    goodLog (DB.upsert connQ st0W "s"
      (some [("id", PyVal.vint 1), ("name", PyVal.vstr "x")]) []).2 ∧
    ([PyVal.vint 7].length = ([] : List PyVal).length + 1 ∧
      "$1" = placeholder [PyVal.vint 7].length) := by
  have hid : ∀ s, countD (connQ.escapeIdent s) = 0 := by
    intro s
    show countD ("\"" ++ String.mk (s.data.filter (fun c => c ≠ '$')) ++ "\"") = 0
    rw [countD_append, countD_append]
    have h1 : countD (String.mk (s.data.filter (fun c => c ≠ '$'))) = 0 := by
      rw [countD_eq_zero_iff]
      intro hm
      have := List.of_mem_filter hm
      simp at this
    rw [h1]
    decide
  constructor
  · exact (claim8_placeholder_lockstep connQ hid).2.2.2.1 st0W "s"
      (some [("id", PyVal.vint 1), ("name", PyVal.vstr "x")]) []
      (by decide) (by intro p hp; simp at hp) (by intro qp hm; simp [st0W] at hm)
  · exact (claim8_placeholder_lockstep connQ hid).2.2.2.2.2
      (PyVal.vint 7) "int" [] [PyVal.vint 7] "$1" (by decide) (by decide)

/-! ### C4: upsert with all-falsy overrides -/

/-- The conflict-update clause is empty when every non-key column has a
falsy keyword override (`value = kw.get(n, True); if value:` skips). -/
theorem buildUpdateClause_falsy {σ : Type} (conn : DBConn σ) (kw : PyDict)
    (keyset : List String) (attns : List (String × String))
    (h : ∀ p ∈ attns, p.1 ∉ keyset → ∃ v, dget kw p.1 = some v ∧ truthy v = false) :
    buildUpdateClause conn kw keyset attns = [] := by
  induction attns with
  | nil => rfl
  | cons p attns ih =>
      obtain ⟨n, t⟩ := p
      simp only [buildUpdateClause]
      by_cases hk : n ∉ keyset
      · obtain ⟨v, hv, hf⟩ := h (n, t) (List.mem_cons_self _ _) hk
        rw [if_pos hk]
        rw [hv]
        simp only [Option.getD_some]
        rw [if_neg (by simp [hf])]
        exact ih (fun p hp => h p (List.mem_cons_of_mem _ hp))
      · rw [if_neg hk]
        exact ih (fun p hp => h p (List.mem_cons_of_mem _ hp))

/-- Merging a result row (no oid renaming) leaves the lookups of keys not
named in the result untouched. -/
theorem mergeRow_dget_notmem {σ : Type} (conn : DBConn σ)
    (attnames : List (String × String)) (rest : List (String × PyVal))
    (k : String) (hk : k ∉ List.map Prod.fst rest) :
    ∀ d : PyDict, dget (mergeRow conn none attnames d rest) k = dget d k := by
  induction rest with
  | nil => intro d; rfl
  | cons p rest ih =>
      intro d
      obtain ⟨n, value⟩ := p
      simp only [List.map_cons, List.mem_cons] at hk
      push_neg at hk
      obtain ⟨hkn, hkr⟩ := hk
      simp only [mergeRow, Option.isSome_none, Bool.false_eq_true, false_and, if_false]
      rw [ih hkr]
      by_cases hb : value ≠ PyVal.vnone ∧ alookup attnames n = some "bytea"
      · rw [if_pos hb]
        exact alookup_aset_ne d k n (conn.unescBytea value) (Ne.symm hkn)
      · rw [if_neg hb]
        exact alookup_aset_ne d k n value (Ne.symm hkn)

/-- After merging a duplicate-free, bytea-free result row (no oid
renaming), every column of the result row is looked up at its fetched
value. -/
theorem mergeRow_dget_mem {σ : Type} (conn : DBConn σ)
    (attnames : List (String × String)) (preRow : List (String × PyVal))
    (hnodup : (List.map Prod.fst preRow).Nodup)
    (hnb : ∀ p ∈ preRow, ¬ (alookup attnames p.1 = some "bytea")) :
    ∀ d : PyDict, ∀ p ∈ preRow,
      dget (mergeRow conn none attnames d preRow) p.1 = some p.2 := by
  induction preRow with
  | nil => intro d p hp; exact absurd hp (List.not_mem_nil p)
  | cons q rest ih =>
      intro d p hp
      obtain ⟨n, value⟩ := q
      have hb : ¬ (value ≠ PyVal.vnone ∧ alookup attnames n = some "bytea") := by
        intro hc
        exact hnb (n, value) (List.mem_cons_self _ _) hc.2
      simp only [mergeRow, Option.isSome_none, Bool.false_eq_true, false_and, if_false,
        if_neg hb]
      simp only [List.map_cons, List.nodup_cons] at hnodup
      rcases List.mem_cons.mp hp with hph | hpt
      · subst hph
        rw [mergeRow_dget_notmem conn attnames rest n hnodup.1]
        exact alookup_aset_self d n value
      · exact ih hnodup.2 (fun p hp => hnb p (List.mem_cons_of_mem _ hp)) _ p hpt

/-- C4: an upsert whose keyword overrides are falsy for every non-key
column builds a `DO nothing` conflict clause; when the executor (modelled
after the documented `ON CONFLICT DO NOTHING` behaviour on a conflicting
row) returns no row and leaves the server store untouched, upsert
re-fetches the row via `get`, which returns the pre-existing row's
current values for every fetched column, and the server store is the one
the call started from. -/
theorem claim4_upsert_do_nothing_refetch {σ : Type} (conn : DBConn σ)
    (st stA stB stC : DBState σ)
    (table : String) (row0 : Option PyDict) (kw : PyDict)
    (attnames : List (String × String)) (names values wfrags : List String)
    (params wparams : List PyVal) (pk : PKey) (row preRow : PyDict) (qU : String)
    (hstrip : stripStar table = table)
    (hrow : row = ddel (row0.getD []) "oid")
    (hA : DB.get_attnames conn st table false = (attnames, stA))
    (hoid : alookup attnames "oid" = none)
    (hB : buildNamesValues conn row attnames [] = .ok (names, values, params))
    (hv : values ≠ [])
    (hP : DB.pkey conn stA table true false = (.ok pk, stB))
    (hkw : ∀ p ∈ attnames, p.1 ∉ List.append (pkeyList pk) ["oid"] →
        ∃ v, dget (ddel kw "oid") p.1 = some v ∧ truthy v = false)
    (hqU : qU = upsertQ (escQualName conn table) (joinSep ", " names)
        (joinSep ", " values) (joinSep ", " (List.map conn.escapeIdent (pkeyList pk)))
        "nothing" "*")
    (hrunU : ∀ s, conn.runQuery qU params s = .ok (.rset [], s))
    (hC : stC = ⟨stB.pkeys, stB.attnamesCache, stB.catalogQueries,
        List.append stB.executed [(qU, params)], stB.store⟩)
    (hA2 : DB.get_attnames conn stC table false = (attnames, stC))
    (hP2 : DB.pkey conn stC table true false = (.ok pk, stC))
    (hkeys : (pkeyList pk).all (fun k => dcontains row k) = true)
    (hW : buildWhere conn attnames row (pkeyList pk) [] = .ok (wfrags, wparams))
    (hrunS : ∀ s, conn.runQuery (selectQ "*" (escQualName conn table)
        (joinSep " AND " wfrags)) wparams s = .ok (.rset [preRow], s))
    (hnodup : (List.map Prod.fst preRow).Nodup)
    (hnb : ∀ p ∈ preRow, ¬ (alookup attnames p.1 = some "bytea")) :
    DB.upsert conn st table row0 kw = DB.get conn stC table (.dict row) none
    ∧ (DB.upsert conn st table row0 kw).1
        = .ok (mergeRow conn none attnames row preRow)
    ∧ (∀ p ∈ preRow, dget (mergeRow conn none attnames row preRow) p.1 = some p.2)
    ∧ (DB.upsert conn st table row0 kw).2.store = st.store := by
  have hupd : buildUpdateClause conn (ddel kw "oid")
      (List.append (pkeyList pk) ["oid"]) attnames = [] :=
    buildUpdateClause_falsy conn _ _ attnames hkw
  have hnooid : dcontains row "oid" = false := by
    rw [hrow]
    exact acontains_adel_self _ _
  have hU : DB.upsert conn st table row0 kw
      = DB.get conn stC table (.dict row) none := by
    simp only [DB.upsert, hstrip]
    rw [hA]
    simp only []
    rw [← hrow, hB]
    simp only []
    rw [hP]
    simp only []
    rw [if_neg hv]
    simp only [hoid, Option.isSome_none, Bool.false_eq_true, if_false]
    rw [hupd]
    rw [if_neg (fun h => h rfl)]
    rw [← hqU]
    simp only [runQ, hrunU, dictresult]
    rw [hC]
  have hres : DB.getResolveKeyname conn stC table (.dict row) none none
      = (.ok (pkeyList pk), stC) := by
    simp only [DB.getResolveKeyname]
    rw [hP2, if_pos trivial]
    simp only []
    rw [if_neg (fun h => h hkeys)]
  have hG : DB.get conn stC table (.dict row) none
      = (.ok (mergeRow conn none attnames row preRow),
         ⟨stC.pkeys, stC.attnamesCache, stC.catalogQueries,
          List.append stC.executed
            [(selectQ "*" (escQualName conn table) (joinSep " AND " wfrags), wparams)],
          stC.store⟩) := by
    simp only [DB.get, hstrip]
    rw [hA2]
    simp only []
    simp only [hoid, Option.isSome_none, Bool.false_eq_true, if_false]
    rw [hres]
    simp only []
    rw [hW]
    simp only []
    simp only [moveOid, hnooid, Bool.false_eq_true, if_false]
    simp only [runQ, hrunS, dictresult]
  refine ⟨hU, ?_, ?_, ?_⟩
  · rw [hU, hG]
  · exact mergeRow_dget_mem conn attnames preRow hnodup hnb row
  · rw [hU, hG]
    simp only []
    have h2 : stB.store = stA.store := by
      have h := pkey_store conn stA table true false
      rw [hP] at h
      exact h
    have h3 : stA.store = st.store := by
      have h := get_attnames_store conn st table false
      rw [hA] at h
      exact h
    rw [hC]
    simp only []
    rw [h2, h3]

/-- A connection whose executor answers the DO-nothing INSERT of upsert
with an empty row set (a conflicting row exists) and the subsequent
SELECT with that pre-existing row. -/
def connU : DBConn Unit := { connW with
  runQuery := fun q _ s =>
    if q.data.take 7 = "INSERT ".data then .ok (.rset [], s)
    else if q.data.take 7 = "SELECT ".data then
      .ok (.rset [[("id", PyVal.vint 1), ("name", PyVal.vstr "old")]], s)
    else .error (.internalError "x") }

/-- C4 (witness): upserting `name = 'new'` with the falsy override
`name = False` against the existing row `name = 'old'` returns the
record repopulated with `'old'` and leaves the server store unchanged. -/
theorem claim4_witness :
    (DB.upsert connU st0W "s"
        (some [("id", PyVal.vint 1), ("name", PyVal.vstr "new")])
        [("name", PyVal.vbool false)]).1
      = .ok [("id", PyVal.vint 1), ("name", PyVal.vstr "old")] ∧
    (DB.upsert connU st0W "s"
        (some [("id", PyVal.vint 1), ("name", PyVal.vstr "new")])
        [("name", PyVal.vbool false)]).2.store = st0W.store := by
  have h := claim4_upsert_do_nothing_refetch connU st0W
    ⟨[], [("s", [("id", "int"), ("name", "text")])], 1, [], ()⟩
    ⟨[("s", PKey.single "id")], [("s", [("id", "int"), ("name", "text")])], 2, [], ()⟩
    ⟨[("s", PKey.single "id")], [("s", [("id", "int"), ("name", "text")])], 2,
      [("INSERT INTO \"s\" AS included (\"id\", \"name\") VALUES ($1, $2) ON CONFLICT (\"id\") DO nothing RETURNING *",
        [PyVal.vint 1, PyVal.vstr "new"])], ()⟩
    "s" (some [("id", PyVal.vint 1), ("name", PyVal.vstr "new")])
    [("name", PyVal.vbool false)]
    [("id", "int"), ("name", "text")]
    ["\"id\"", "\"name\""] ["$1", "$2"] ["\"id\" = $1"]
    [PyVal.vint 1, PyVal.vstr "new"] [PyVal.vint 1]
    (PKey.comp ["id"])
    [("id", PyVal.vint 1), ("name", PyVal.vstr "new")]
    [("id", PyVal.vint 1), ("name", PyVal.vstr "old")]
    "INSERT INTO \"s\" AS included (\"id\", \"name\") VALUES ($1, $2) ON CONFLICT (\"id\") DO nothing RETURNING *"
    rfl rfl rfl rfl (by decide) (by decide) rfl
    (by
      intro p hp hnk
      rcases List.mem_cons.mp hp with h1 | hp2
      · subst h1
        exact absurd (by decide) hnk
      · rcases List.mem_cons.mp hp2 with h1 | h1
        · subst h1
          exact ⟨PyVal.vbool false, rfl, rfl⟩
        · exact absurd h1 (List.not_mem_nil p))
    rfl (fun s => rfl) rfl rfl rfl (by decide) (by decide) (fun s => rfl)
    (by decide) (by decide)
  exact ⟨h.2.1.trans (by decide), h.2.2.2⟩

/-! ### C5: the upsert version-gated error substitution -/

/-- C5: when the executor rejects the synthesized upsert statement with
error `e`, `upsert` surfaces the distinct "Upsert operation is not
supported by PostgreSQL version" `ProgrammingError` exactly when `e` is
itself a `ProgrammingError` and the detected server version number is
below 90500; any other rejection is propagated unchanged. -/
theorem claim5_upsert_version_gate {σ : Type} (conn : DBConn σ) (st : DBState σ)
    (table : String) (row0 : Option PyDict) (kw : PyDict) (e : DBErr)
    (names values : List String) (params : List PyVal)
    (pk : PKey) (stB : DBState σ)
    (hrun : ∀ q ps s, conn.runQuery q ps s = .error e)
    (hB : buildNamesValues conn (ddel (row0.getD []) "oid")
        (DB.get_attnames conn st (stripStar table) false).1 []
        = .ok (names, values, params))
    (hP : DB.pkey conn (DB.get_attnames conn st (stripStar table) false).2
        (stripStar table) true false = (.ok pk, stB))
    (hv : values ≠ []) :
    (DB.upsert conn st table row0 kw).1 =
      .error (if isProgError e ∧ conn.serverVersion < 90500
        then .progError "Upsert operation is not supported by PostgreSQL version"
        else e) := by
  simp only [DB.upsert]
  cases hA : DB.get_attnames conn st (stripStar table) false with
  | mk attnames stA =>
      rw [hA] at hB hP
      simp only [] at hB hP
      simp only []
      rw [hB]
      simp only []
      rw [hP]
      simp only []
      rw [if_neg hv]
      simp only [runQ, hrun]
      by_cases hpe : isProgError e = true
      · by_cases hver : conn.serverVersion < 90500
        · simp [hpe, hver]
        · simp [hpe, hver]
      · simp [hpe]

/-- A connection whose executor rejects every statement with a
`ProgrammingError`, on a server predating 9.5 (version number 90400). -/
def connE1 : DBConn Unit := { connW with
  serverVersion := 90400
  runQuery := fun _ _ _ => .error (.progError "boom") }

/-- The same failing executor on a 9.6 server (version number 90600). -/
def connE2 : DBConn Unit := { connW with
  runQuery := fun _ _ _ => .error (.progError "boom") }

/-- C5 (witness): the same rejected upsert is reported as
upsert-unsupported on the 9.4 server and propagated verbatim on the 9.6
server. -/
theorem claim5_witness :
    (DB.upsert connE1 st0W "s"
        (some [("id", PyVal.vint 1), ("name", PyVal.vstr "x")]) []).1
      = .error (.progError "Upsert operation is not supported by PostgreSQL version") ∧
    (DB.upsert connE2 st0W "s"
        (some [("id", PyVal.vint 1), ("name", PyVal.vstr "x")]) []).1
      = .error (.progError "boom") := by
  constructor
  · exact (claim5_upsert_version_gate connE1 st0W "s"
      (some [("id", PyVal.vint 1), ("name", PyVal.vstr "x")]) []
      (.progError "boom") ["\"id\"", "\"name\""] ["$1", "$2"]
      [PyVal.vint 1, PyVal.vstr "x"] (PKey.comp ["id"])
      ⟨[("s", PKey.single "id")], [("s", [("id", "int"), ("name", "text")])], 2, [], ()⟩
      (fun _ _ _ => rfl) (by decide) (by rfl) (by decide)).trans (by decide)
  · exact (claim5_upsert_version_gate connE2 st0W "s"
      (some [("id", PyVal.vint 1), ("name", PyVal.vstr "x")]) []
      (.progError "boom") ["\"id\"", "\"name\""] ["$1", "$2"]
      [PyVal.vint 1, PyVal.vstr "x"] (PKey.comp ["id"])
      ⟨[("s", PKey.single "id")], [("s", [("id", "int"), ("name", "text")])], 2, [], ()⟩
      (fun _ _ _ => rfl) (by decide) (by rfl) (by decide)).trans (by decide)

/-! ### C10: plain `oid` entries and the OID fallback -/

/-- A connection whose tables have an `oid` column but no primary key,
with an executor acknowledging DELETE statements with row count 1. -/
def connO : DBConn Unit := {
  catalogPkey := fun _ => []
  catalogAttnames := fun _ => [("oid", "oid"), ("name", "varchar")]
  regtypes := false
  serverVersion := 90600
  escapeIdent := fun s => "\"" ++ s ++ "\""
  escBytea := fun v => v
  encJson := fun v => v
  unescBytea := fun v => v
  runQuery := fun q _ s =>
    if q.data.take 7 = "DELETE ".data then .ok (.count 1, s)
    else .ok (.rset [], s) }

/-- C10: a plain `oid` entry of the row dict is deleted and ignored for
key resolution by both update and delete — against a table without a
primary key the call still fails with "no primary key" even though the
dict carried an `oid` — while an OID supplied under the synthetic
`oid(<table>)` key or as the keyword argument `oid` does serve as the
fallback key (and the plain `oid` entry is gone from the returned
record). -/
theorem claim10_oid_handling {σ : Type} (conn : DBConn σ) (st : DBState σ)
    (tb : String) (A : List (String × String)) (st1 : DBState σ)
    (err : DBErr) (st2 : DBState σ)
    (hstar : endsStar tb = false)
    (hA : DB.get_attnames conn st tb false = (A, st1))
    (hoid : alookup A "oid" = some "int")
    (hpk : DB.pkey conn st1 tb true false = (.error err, st2)) :
    (∀ d kw : PyDict, acontains kw "oid" = false →
       acontains d (oid_key tb) = false → acontains kw (oid_key tb) = false →
       (DB.update conn st tb (some d) kw).1
         = .error (.progError ("Table " ++ tb ++ " has no primary key")) ∧
       (DB.delete conn st tb (some d) kw).1
         = .error (.progError ("Table " ++ tb ++ " has no primary key"))) ∧
    ((DB.update connO st0W "o" (some [("oid", .vint 5), ("oid(o)", .vint 7)])
        []).1 = .ok [("oid(o)", PyVal.vint 7)]) ∧
    ((DB.delete connO st0W "o" (some [("name", .vstr "x")])
        [("oid", .vint 5)]).1 = .ok 1) := by
  refine ⟨?_, by decide, by decide⟩
  intro d kw hkw hdq hkwq
  have ho' : dcontains (dupdate (ddel d "oid") kw) "oid" = false := by
    show acontains (dupdate (adel d "oid") kw) "oid" = false
    rw [acontains_eq_isSome, alookup_dupdate_notin _ _ _ hkw]
    have h1 := acontains_adel_self d "oid"
    rw [acontains_eq_isSome] at h1
    exact h1
  have hq' : dcontains (dupdate (ddel d "oid") kw) (oid_key tb) = false := by
    show acontains (dupdate (adel d "oid") kw) (oid_key tb) = false
    rw [acontains_eq_isSome, alookup_dupdate_notin _ _ _ hkwq,
      alookup_adel_ne d (oid_key tb) "oid" (Ne.symm (oid_key_ne_oid tb))]
    rw [acontains_eq_isSome] at hdq
    exact hdq
  constructor
  · unfold DB.update DB.updateResolveKeyname
    rw [stripStar_no_star hstar]
    simp only [hA, hoid, hpk, hq', ho', Option.isSome_some, Option.isSome_none,
      Bool.false_eq_true, false_and, and_false, if_false, if_true, true_and, and_true]
  · unfold DB.delete DB.updateResolveKeyname
    rw [stripStar_no_star hstar]
    simp only [hA, hoid, hpk, hq', ho', Option.isSome_some, Option.isSome_none,
      Bool.false_eq_true, false_and, and_false, if_false, if_true, true_and, and_true]

/-- C10 (witness): concrete rows with a plain `oid` entry fail the key
resolution of update and delete on a keyless table. -/
theorem claim10_witness :
    (DB.update connO st0W "o" (some [("oid", .vint 5), ("name", .vstr "x")])
        []).1 = .error (.progError "Table o has no primary key") ∧
    (DB.delete connO st0W "o" (some [("oid", .vint 5), ("name", .vstr "x")])
        []).1 = .error (.progError "Table o has no primary key") :=
  (claim10_oid_handling connO st0W "o" [("oid", "int"), ("name", "text")] _ _ _
      rfl rfl rfl rfl).1
    [("oid", .vint 5), ("name", .vstr "x")] [] rfl rfl rfl

/-- C7 (witness): cache behavior at a concrete table. -/
theorem claim7_witness :
    ((DB.get_attnames connW st0W "s" false).2.catalogQueries
        = st0W.catalogQueries + 1 ∧
     (DB.get_attnames connW (DB.get_attnames connW st0W "s" false).2 "s" false).1
       = (DB.get_attnames connW st0W "s" false).1 ∧
     (DB.get_attnames connW (DB.get_attnames connW st0W "s" false).2 "s" false).2
       = (DB.get_attnames connW st0W "s" false).2) ∧
    (st0W.attnamesCache = [] → DB.clearAttnames st0W = st0W) :=
  claim7_attnames_cache connW st0W "s" rfl

end PG
